import Mathlib

/-!
Verification development for the bridal-catalog metadata codec and renderer
(`app.py`).  The Python source is shallowly embedded: JSON trees become the
inductive `JValue`, Python dicts become association lists (first-occurrence
lookup; `json.loads` never produces duplicate keys), Python strings become
Lean `String`s manipulated through explicit `List Char` helpers mirroring the
CPython semantics of `strip`, `splitlines`, `join`, `split(sep, 1)` and
truthiness.  All definitions are executable and structurally recursive so
that concrete instances evaluate by `rfl`/`decide`.
-/

namespace Cpml

/-- A JSON value as produced by Python's `json.loads`.  Numbers carry their
Python `str()` rendering (e.g. `"3"`, `"2.5"`); this is faithful because the
code only ever stringifies or truth-tests numbers, never computes with them. -/
inductive JValue where
  | null
  | bool (b : Bool)
  | num (s : String)
  | str (s : String)
  | arr (xs : List JValue)
  | obj (kvs : List (String × JValue))
  deriving Repr, Inhabited

/-- Python whitespace for `str.strip()` restricted to the ASCII whitespace
characters (space, tab, newline, carriage return, vertical tab, form feed);
CPython additionally strips other Unicode space characters, which the
metadata files in scope do not contain. -/
def pyWS (c : Char) : Bool :=
  c = ' ' || c = '\t' || c = '\n' || c = '\r' || c = '\x0b' || c = '\x0c'

/-- Characters of `str.strip()`: drop leading and trailing whitespace. -/
def stripChars (l : List Char) : List Char :=
  ((l.dropWhile pyWS).reverse.dropWhile pyWS).reverse

/-- Python `str.strip()`. -/
def pyStrip (s : String) : String :=
  ⟨stripChars s.data⟩

/-- Python `str.lstrip()`. -/
def pyLStrip (s : String) : String :=
  ⟨s.data.dropWhile pyWS⟩

/-- Python `sep.join(parts)`. -/
def pyJoin (sep : String) : List String → String
  | [] => ""
  | [p] => p
  | p :: rest => p ++ sep ++ pyJoin sep rest

/-- Python `str.lower()` restricted to ASCII letters (the only characters
occurring in the extensions this code lowercases). -/
def pyLower (s : String) : String :=
  ⟨s.data.map Char.toLower⟩

/-- Python `str.startswith(pre)`. -/
def pyStartsWith (s pre : String) : Bool :=
  pre.data.isPrefixOf s.data

/-- Everything after the first occurrence of `sep` in the character list
(`none` when `sep` does not occur). -/
def afterFirstAux (sep : List Char) : List Char → Option (List Char)
  | [] => none
  | c :: rest =>
    if sep.isPrefixOf (c :: rest) then some ((c :: rest).drop sep.length)
    else afterFirstAux sep rest

/-- Helper for `str.splitlines()`: split a character list at `\n`, `\r\n`
and `\r`, with no trailing empty line. -/
def splitlinesAux : List Char → List Char → List String
  | [], [] => []
  | [], acc => [⟨acc.reverse⟩]
  | '\r' :: '\n' :: rest, acc => (⟨acc.reverse⟩ : String) :: splitlinesAux rest []
  | '\r' :: rest, acc => (⟨acc.reverse⟩ : String) :: splitlinesAux rest []
  | '\n' :: rest, acc => (⟨acc.reverse⟩ : String) :: splitlinesAux rest []
  | c :: rest, acc => splitlinesAux rest (c :: acc)

/-- Python `str.splitlines()` (the line boundaries occurring in the data:
`\n`, `\r\n`, `\r`). -/
def pySplitlines (s : String) : List String :=
  splitlinesAux s.data []

/-- Python `s.split(sep, 1)[1]`: everything after the first occurrence of
`sep` (used only on lines known to contain `sep`). -/
def afterFirstSep (sep s : String) : String :=
  match afterFirstAux sep.data s.data with
  | some r => ⟨r⟩
  | none => ""

/-- Python truthiness (`bool(v)`) of a JSON value. -/
def pyTruthy : JValue → Bool
  | .null => false
  | .bool b => b
  | .num s => !(s = "0" || s = "0.0" || s = "-0.0")
  | .str s => !(s = "")
  | .arr xs => !xs.isEmpty
  | .obj kvs => !kvs.isEmpty

/-- Python `a or b` on JSON values. -/
def pyOr (a b : JValue) : JValue :=
  if pyTruthy a then a else b

/-- Python `repr()` of a string: quote choice (single quotes unless the
string contains a single quote and no double quote) and escaping of the
backslash, the chosen quote, and ASCII control characters. -/
def pyStrReprChar (quote : Char) (c : Char) : String :=
  if c = '\\' then "\\\\"
  else if c = quote then "\\" ++ String.singleton c
  else if c = '\n' then "\\n"
  else if c = '\r' then "\\r"
  else if c = '\t' then "\\t"
  else if c.toNat < 32 || c.toNat = 127 then
    "\\x" ++ String.singleton (Nat.digitChar (c.toNat / 16)) ++
      String.singleton (Nat.digitChar (c.toNat % 16))
  else String.singleton c

/-- Python `repr()` of a string. -/
def pyStrRepr (s : String) : String :=
  let quote : Char :=
    if s.data.contains '\x27' && !(s.data.contains '"') then '"' else '\x27'
  String.singleton quote ++ String.join (s.data.map (pyStrReprChar quote)) ++
    String.singleton quote

mutual

/-- Python `repr()` of a JSON value (as loaded into Python objects):
`None`, `True`/`False`, the number's `str`, quoted strings, and
bracketed comma-separated composites. -/
def pyRepr : JValue → String
  | .null => "None"
  | .bool true => "True"
  | .bool false => "False"
  | .num s => s
  | .str s => pyStrRepr s
  | .arr xs => "[" ++ pyReprList xs ++ "]"
  | .obj kvs => "\x7b" ++ pyReprObj kvs ++ "\x7d"

/-- Comma-separated `repr`s of list elements. -/
def pyReprList : List JValue → String
  | [] => ""
  | [x] => pyRepr x
  | x :: xs => pyRepr x ++ ", " ++ pyReprList xs

/-- Comma-separated `repr`s of dict entries. -/
def pyReprObj : List (String × JValue) → String
  | [] => ""
  | [(k, v)] => pyStrRepr k ++ ": " ++ pyRepr v
  | (k, v) :: kvs => pyStrRepr k ++ ": " ++ pyRepr v ++ ", " ++ pyReprObj kvs

end

/-- Python `str()` of a JSON value.  On scalars this is direct (so it reduces
definitionally); on lists/dicts Python's `str` coincides with `repr`. -/
def pyStr : JValue → String
  | .null => "None"
  | .bool true => "True"
  | .bool false => "False"
  | .num s => s
  | .str s => s
  | .arr xs => pyRepr (.arr xs)
  | .obj kvs => pyRepr (.obj kvs)

/-- Python `dict.get(k)` on an association list (first occurrence; dicts
from `json.loads` have no duplicate keys). -/
def jget (kvs : List (String × JValue)) (k : String) : Option JValue :=
  match kvs with
  | [] => none
  | (k', v) :: rest => if k' = k then some v else jget rest k

/-- Python `d[k] = v`: replace the value at the first occurrence of `k`
keeping its position, else append the new pair. -/
def jset (kvs : List (String × JValue)) (k : String) (v : JValue) :
    List (String × JValue) :=
  match kvs with
  | [] => [(k, v)]
  | (k', v') :: rest => if k' = k then (k', v) :: rest else (k', v') :: jset rest k v

/-- Python `mapping.get(k)` where an absent key and a JSON `null` are both
Python `None`. -/
def dget (kvs : List (String × JValue)) (k : String) : JValue :=
  (jget kvs k).getD .null

/-- One titled description block (`DescriptionBlock` dataclass). -/
structure DescriptionBlock where
  title : String
  content : String
  deriving Repr, DecidableEq, Inhabited

/-- Canonical normalized metadata: the dict returned by
`_normalize_metadata` / `_parse_legacy_metadata`. -/
structure NormMeta where
  name : String
  price : String
  description : String
  description_blocks : List DescriptionBlock
  deriving Repr, DecidableEq, Inhabited

/-- The positional default block title `"要点 {idx + 1}"`. -/
def pointTitle (idx : Nat) : String :=
  "要点 " ++ toString (idx + 1)

/-- Embedding of `MainWindow._block_from_mapping(mapping, idx)`.  The Python
`or`-chains select the first truthy value (falling through to the last
`get`), `content_raw is None` is the match on `.null`, and a falsy
`title_raw` yields the empty title before the positional default. -/
def blockFromMapping (m : List (String × JValue)) (idx : Option Nat) :
    Option DescriptionBlock :=
  let titleRaw := pyOr (pyOr (dget m "title") (dget m "label")) (dget m "name")
  let contentRaw :=
    pyOr (pyOr (pyOr (pyOr (dget m "text") (dget m "content")) (dget m "desc"))
      (dget m "description")) (dget m "value")
  match contentRaw with
  | .null => none
  | cr =>
    let content := pyStrip (pyStr cr)
    if content = "" then none
    else
      let title := if pyTruthy titleRaw then pyStrip (pyStr titleRaw) else ""
      let title :=
        if title = "" then
          match idx with
          | some i => pointTitle i
          | none => ""
        else title
      some ⟨title, content⟩

/-- The list branch of `_coerce_desc_value`: one pass over the enumerated
items, strings (non-empty after strip) collect into paragraphs, dicts map to
blocks at their list index, everything else is skipped. -/
def coerceListItems : List JValue → Nat → List String × List DescriptionBlock
  | [], _ => ([], [])
  | .str s :: rest, idx =>
    let (ps, bs) := coerceListItems rest (idx + 1)
    if pyStrip s = "" then (ps, bs) else (pyStrip s :: ps, bs)
  | .obj m :: rest, idx =>
    let (ps, bs) := coerceListItems rest (idx + 1)
    match blockFromMapping m (some idx) with
    | some b => (ps, b :: bs)
    | none => (ps, bs)
  | _ :: rest, idx => coerceListItems rest (idx + 1)

/-- Embedding of `MainWindow._coerce_desc_value(value)`.  Python's
`isinstance(value, (int, float))` also catches `bool` (a subclass of `int`),
so booleans stringify through that branch; the trailing
`str(value).strip()` fallback is unreachable for values produced by
`json.loads`. -/
def coerceDescValue : JValue → String × List DescriptionBlock
  | .null => ("", [])
  | .str s => (pyStrip s, [])
  | .bool b => (pyStr (.bool b), [])
  | .num s => (s, [])
  | .arr xs =>
    let (paragraphs, blocks) := coerceListItems xs 0
    (pyJoin "\n" paragraphs, blocks)
  | .obj m =>
    match blockFromMapping m none with
    | some b => ("", [b])
    | none => ("", [])

/-- The list branch of `_coerce_blocks`. -/
def coerceBlocksList : List JValue → Nat → List DescriptionBlock
  | [], _ => []
  | .obj m :: rest, idx =>
    let bs := coerceBlocksList rest (idx + 1)
    match blockFromMapping m (some idx) with
    | some b => b :: bs
    | none => bs
  | .str s :: rest, idx =>
    let bs := coerceBlocksList rest (idx + 1)
    if pyStrip s = "" then bs else ⟨pointTitle idx, pyStrip s⟩ :: bs
  | _ :: rest, idx => coerceBlocksList rest (idx + 1)

/-- Embedding of `MainWindow._coerce_blocks(value)`. -/
def coerceBlocks : JValue → List DescriptionBlock
  | .arr xs => coerceBlocksList xs 0
  | .obj m =>
    match blockFromMapping m none with
    | some b => [b]
    | none => []
  | _ => []

/-- Errors raised by the codec (`ValueError` messages in the source). -/
inductive MetaErr where
  | emptyMetadata
  | malformedJson
  | invalidShape
  deriving Repr, DecidableEq

/-- The `desc` fallback of `_normalize_metadata`: when the coerced
description is empty and the `desc` key holds a string, use its trimmed
value (`isinstance(data.get("desc"), str)`). -/
def descFallback (v : Option JValue) (descText : String) : String :=
  match v with
  | some (.str s) => pyStrip s
  | _ => descText

/-- The object case of `MainWindow._normalize_metadata(data)`: `name` and
`price` are stringified and stripped (`data.get(k, "")`), the description
goes through `_coerce_desc_value` with the string-`desc` fallback, and
blocks are appended from `description_blocks`, `sections`, `highlights` in
that order. -/
def normalizeObj (kvs : List (String × JValue)) : NormMeta :=
  let name := pyStrip (pyStr ((jget kvs "name").getD (.str "")))
  let price := pyStrip (pyStr ((jget kvs "price").getD (.str "")))
  let (descText, blocks0) := coerceDescValue (dget kvs "description")
  let descText :=
    if descText = "" then descFallback (jget kvs "desc") descText else descText
  let blocks := blocks0 ++ coerceBlocks (dget kvs "description_blocks") ++
    coerceBlocks (dget kvs "sections") ++ coerceBlocks (dget kvs "highlights")
  ⟨name, price, descText, blocks⟩

/-- Embedding of `MainWindow._normalize_metadata(data)`: fails with the
`InvalidMetadataShape` error unless the root is an object. -/
def normalizeMetadata : JValue → Except MetaErr NormMeta
  | .obj kvs => .ok (normalizeObj kvs)
  | _ => .error .invalidShape

/-- State-passing loop of `_parse_legacy_metadata`: walk the stripped lines,
recognizing the three labels and the description continuation. -/
def legacyLoop : List String → String → String → List String → Bool →
    String × String × List String
  | [], name, price, descLines, _ => (name, price, descLines)
  | rawLine :: rest, name, price, descLines, collecting =>
    let line := pyStrip rawLine
    if line = "" then
      legacyLoop rest name price
        (if collecting then descLines ++ [""] else descLines) collecting
    else if pyStartsWith line "名称：" then
      legacyLoop rest (pyStrip (afterFirstSep "：" line)) price descLines false
    else if pyStartsWith line "介绍：" then
      legacyLoop rest name price [pyStrip (afterFirstSep "：" line)] true
    else if pyStartsWith line "价格：" then
      legacyLoop rest name (pyStrip (afterFirstSep "：" line)) descLines false
    else if collecting then
      legacyLoop rest name price (descLines ++ [line]) collecting
    else
      legacyLoop rest name price descLines collecting

/-- Whether a raw line, after stripping, carries one of the three labels
the legacy parser recognizes. -/
def isRecognizedLine (rawLine : String) : Bool :=
  pyStartsWith (pyStrip rawLine) "名称：" || pyStartsWith (pyStrip rawLine) "介绍：" ||
    pyStartsWith (pyStrip rawLine) "价格："

/-- Embedding of `MainWindow._parse_legacy_metadata(text)`. -/
def parseLegacyMetadata (text : String) : NormMeta :=
  let (name, price, descLines) := legacyLoop (pySplitlines text) "" "" [] false
  let description :=
    pyStrip (pyJoin "\n"
      (descLines.filter (fun part => !(pyStrip part = "") || part = "")))
  ⟨name, price, description, []⟩

/-- The original parsed structure retained for re-serialization
(`raw_meta`): a JSON tree for structured files, the stripped text for
legacy files. -/
inductive RawMeta where
  | json (v : JValue)
  | text (s : String)
  deriving Repr, Inhabited

/-- The format detection of `_parse_metadata_file`:
`path.suffix.lower() == ".json" or text.lstrip().startswith("{")`. -/
def looksLikeJson (suffix text : String) : Bool :=
  pyLower suffix = ".json" || pyStartsWith (pyLStrip text) "\x7b"

/-- Embedding of `MainWindow._parse_metadata_file`, with the outcome of
`json.loads` supplied as the function `jsonParse` (the control flow around
it is what is modelled; `none` stands for a `JSONDecodeError`).  The file
content is stripped once on read; `suffix` is `path.suffix`. -/
def parseMetadataFile (jsonParse : String → Option JValue) (suffix : String)
    (content : String) : Except MetaErr (NormMeta × RawMeta) :=
  let text := pyStrip content
  if text = "" then .error .emptyMetadata
  else if looksLikeJson suffix text then
    match jsonParse text with
    | none => .error .malformedJson
    | some raw =>
      match normalizeMetadata raw with
      | .ok m => .ok (m, .json raw)
      | .error e => .error e
  else .ok (parseLegacyMetadata text, .text text)

/-- The `data` dict assembled by the editor (`EntryEditor.save_changes`):
the edited name, price and plain description text. -/
structure EditData where
  name : String
  price : String
  desc : String
  deriving Repr, DecidableEq, Inhabited

/-- The line loop of `MainWindow._split_paragraphs(text)`: a stripped
non-blank line extends the current paragraph, a blank line flushes a
non-empty current paragraph (joined by single spaces), and the leftover
paragraph is flushed at the end. -/
def splitParagraphsLoop : List String → List String → List String → List String
  | [], blocks, current =>
    if current = [] then blocks else blocks ++ [pyJoin " " current]
  | line :: rest, blocks, current =>
    if pyStrip line = "" then
      if current = [] then splitParagraphsLoop rest blocks current
      else splitParagraphsLoop rest (blocks ++ [pyJoin " " current]) []
    else
      splitParagraphsLoop rest blocks (current ++ [pyStrip line])

/-- Embedding of `MainWindow._split_paragraphs(text)`: consecutive non-blank
lines (each stripped) joined by a single space form one paragraph, blank
lines separate paragraphs. -/
def splitParagraphs (text : String) : List String :=
  if text = "" then [] else splitParagraphsLoop (pySplitlines text) [] []

/-- Embedding of `MainWindow._convert_desc_for_json(existing_value, text)`. -/
def convertDescForJson (existingValue : JValue) (text : String) : JValue :=
  let stripped := pyStrip text
  match existingValue with
  | .arr _ => .arr ((splitParagraphs stripped).map .str)
  | _ => .str stripped

/-- Embedding of `MainWindow._prepare_json_payload(raw_meta, data)`: shallow
copy of the original tree (or an empty dict), overwrite `name` and `price`,
rewrite `description` shape-preservingly reading the pre-assignment value,
and overwrite `desc` only when that key already exists. -/
def prepareJsonPayload (rawMeta : Option JValue) (data : EditData) :
    List (String × JValue) :=
  let payload :=
    match rawMeta with
    | some (.obj kvs) => kvs
    | _ => []
  let payload := jset payload "name" (.str data.name)
  let payload := jset payload "price" (.str data.price)
  let payload := jset payload "description"
    (convertDescForJson (dget payload "description") data.desc)
  if (jget payload "desc").isSome then jset payload "desc" (.str data.desc)
  else payload

/-- Embedding of `MainWindow._build_legacy_text(data)`. -/
def buildLegacyText (data : EditData) : String :=
  "名称：" ++ data.name ++ "\n介绍：" ++ data.desc ++ "\n价格：" ++ data.price ++ "\n"

/-- One character of Python `html.escape(value, quote=True)`.  CPython
replaces `&` first and then the other four characters; since every needle is
a single character and no replacement output contains a later needle, the
sequential replaces coincide with this character-wise map. -/
def pyHtmlEscapeChar (c : Char) : String :=
  if c = '&' then "&amp;"
  else if c = '<' then "&lt;"
  else if c = '>' then "&gt;"
  else if c = '"' then "&quot;"
  else if c = '\x27' then "&#x27;"
  else String.singleton c

/-- Characters of the escaped string. -/
def escapeChars : List Char → List Char
  | [] => []
  | c :: rest => (pyHtmlEscapeChar c).data ++ escapeChars rest

/-- Python `html.escape(value, quote=True)`. -/
def pyHtmlEscape (s : String) : String :=
  ⟨escapeChars s.data⟩

/-- Embedding of `MainWindow._render_inline(value)` (the guard is Python
string truthiness). -/
def renderInline (value : String) : String :=
  if value = "" then "" else pyHtmlEscape value

/-- Characters of `s.replace("\n", r)`. -/
def replaceNlChars (r : List Char) : List Char → List Char
  | [] => []
  | c :: rest => (if c = '\n' then r else [c]) ++ replaceNlChars r rest

/-- Python `s.replace("\n", r)`: the needle is a single character, so the
replacement is character-wise. -/
def replaceNewlines (s r : String) : String :=
  ⟨replaceNlChars r.data s.data⟩

/-- Embedding of `MainWindow._render_paragraph(value)`. -/
def renderParagraph (value : String) : String :=
  if value = "" then "" else replaceNewlines (pyHtmlEscape value) "<br />"

/-- The textual fields of a `BridalEntry` consumed by the renderer.  The
four image `Path` fields of the dataclass are opaque filesystem references;
their resolution to URIs is modelled separately by `toUri`. -/
structure BridalEntry where
  slug : String
  name : String
  description : String
  price : String
  description_blocks : List DescriptionBlock
  deriving Repr, DecidableEq, Inhabited

/-- Embedding of `MainWindow._build_description_html(entry)`: the optional
description paragraph, then the block cards (content-empty blocks skipped,
empty escaped titles replaced by `亮点`), else the literal placeholder. -/
def buildDescriptionHtml (e : BridalEntry) : String :=
  let blocks : List String :=
    if e.description = "" then [] else
      ["<p>" ++ renderParagraph e.description ++ "</p>"]
  let blocks :=
    if e.description_blocks.isEmpty then blocks else
      let cards := String.join (e.description_blocks.filterMap (fun b =>
        if b.content = "" then none else
          some ("<article><h3>" ++
            (let t := renderInline b.title; if t = "" then "亮点" else t) ++
            "</h3><p>" ++ renderParagraph b.content ++ "</p></article>")))
      if cards = "" then blocks else
        blocks ++ ["<div class=\x27desc-grid\x27>" ++ cards ++ "</div>"]
  if blocks.isEmpty then "<p>暂无介绍。</p>" else String.join blocks

/-- The base64 alphabet used by `base64.b64encode`. -/
def base64Alphabet : List Char :=
  "ABCDEFGHIJKLMNOPQRSTUVWXYZabcdefghijklmnopqrstuvwxyz0123456789+/".data

/-- Character at a six-bit index of the base64 alphabet. -/
def b64Char (n : Nat) : Char :=
  base64Alphabet.getD n 'A'

/-- Standard base64 of a byte sequence (bytes as `Nat`, reduced mod 256),
with `=` padding, as produced by `base64.b64encode`. -/
def b64Encode : List Nat → List Char
  | b1 :: b2 :: b3 :: rest =>
    let n := b1 % 256 * 65536 + b2 % 256 * 256 + b3 % 256
    b64Char (n / 262144) :: b64Char (n / 4096 % 64) :: b64Char (n / 64 % 64) ::
      b64Char (n % 64) :: b64Encode rest
  | [b1, b2] =>
    let n := b1 % 256 * 65536 + b2 % 256 * 256
    [b64Char (n / 262144), b64Char (n / 4096 % 64), b64Char (n / 64 % 64), '=']
  | [b1] =>
    let n := b1 % 256 * 65536
    [b64Char (n / 262144), b64Char (n / 4096 % 64), '=', '=']
  | [] => []

/-- Python `s.strip(".")`: drop leading and trailing dots. -/
def pyStripDots (s : String) : String :=
  ⟨((s.data.dropWhile (· = '.')).reverse.dropWhile (· = '.')).reverse⟩

/-- Embedding of the inline-embed branch of `render_page.to_uri(path)`:
`readBytes` is the outcome of `path.read_bytes()` (`none` for an `OSError`)
and `suffix` is `path.suffix`.  The MIME subtype is
`path.suffix.lower().strip(".") or "jpeg"`. -/
def toUri (readBytes : Option (List Nat)) (suffix : String) : String :=
  match readBytes with
  | none => ""
  | some bytes =>
    let encoded : String := ⟨b64Encode bytes⟩
    let sfx := pyStripDots (pyLower suffix)
    let sfx := if sfx = "" then "jpeg" else sfx
    "data:image/" ++ sfx ++ ";base64," ++ encoded

/-- Embedding of the display-name fallback in `load_entries`
(`name = metadata.get("name") or folder.name`): string truthiness on the
normalized name. -/
def loadEntryName (metadata : NormMeta) (folderName : String) : String :=
  if metadata.name = "" then folderName else metadata.name

/-- Whether a JSON value is a list (`isinstance(value, list)`). -/
def JValue.isArr : JValue → Bool
  | .arr _ => true
  | _ => false

/-- Whether a JSON value is an object (`isinstance(data, dict)`). -/
def JValue.isObj : JValue → Bool
  | .obj _ => true
  | _ => false

/-- The description shape table as the specification states it: one clause
per input shape, with the list clause built from `filterMap`/`enum`
combinators (strings contribute trimmed non-empty paragraphs, objects
contribute blocks at their list positions, anything else is skipped). -/
def coerceDescValueSpec : JValue → String × List DescriptionBlock
  | .null => ("", [])
  | .str s => (pyStrip s, [])
  | .num s => (s, [])
  | .bool b => (pyStr (.bool b), [])
  | .arr xs =>
    (pyJoin "\n" (xs.filterMap fun v =>
        match v with
        | .str s => if pyStrip s = "" then none else some (pyStrip s)
        | _ => none),
      xs.enum.filterMap fun p =>
        match p.2 with
        | .obj m => blockFromMapping m (some p.1)
        | _ => none)
  | .obj m => ("", (blockFromMapping m none).toList)

/-- First value among the given keys that is PRESENT in the mapping
(the literal reading of claim C3). -/
def firstPresent (m : List (String × JValue)) : List String → Option JValue
  | [] => none
  | k :: ks =>
    match jget m k with
    | some v => some v
    | none => firstPresent m ks

/-- Claim C3 read literally: title from the first present key among
`title`/`label`/`name`, content from the first present key among
`text`/`content`/`desc`/`description`/`value` (each stringified then
trimmed); no block when no content key is present or content trims empty;
positional default title only when no title key is present. -/
def blockFromMappingClaim (m : List (String × JValue)) (idx : Option Nat) :
    Option DescriptionBlock :=
  match firstPresent m ["text", "content", "desc", "description", "value"] with
  | none => none
  | some cv =>
    let content := pyStrip (pyStr cv)
    if content = "" then none
    else
      let title :=
        match firstPresent m ["title", "label", "name"] with
        | some tv => pyStrip (pyStr tv)
        | none =>
          match idx with
          | some i => pointTitle i
          | none => ""
      some ⟨title, content⟩

/-- First TRUTHY value among the given keys (absent keys read as `null`). -/
def firstTruthy (m : List (String × JValue)) : List String → Option JValue
  | [] => none
  | k :: ks =>
    if pyTruthy (dget m k) then some (dget m k) else firstTruthy m ks

/-- Claim C3 as amended: the key chains select the first truthy value
(content falls back to the `value` entry when none is truthy); no block
exactly when that result is null/absent or its stringification trims
empty; the positional default applies whenever the selected title trims
empty. -/
def blockFromMappingAmended (m : List (String × JValue)) (idx : Option Nat) :
    Option DescriptionBlock :=
  let contentRaw :=
    (firstTruthy m ["text", "content", "desc", "description", "value"]).getD
      (dget m "value")
  match contentRaw with
  | .null => none
  | cr =>
    let content := pyStrip (pyStr cr)
    if content = "" then none
    else
      let title :=
        match firstTruthy m ["title", "label", "name"] with
        | some tv => pyStrip (pyStr tv)
        | none => ""
      let title :=
        if title = "" then
          match idx with
          | some i => pointTitle i
          | none => ""
        else title
      some ⟨title, content⟩

/-- A plausible set of recognized raster/vector image extensions, used to
instantiate claim C9's phrase "unrecognized extension" at a concrete
input. -/
def recognizedImageExts : List String :=
  ["png", "jpg", "jpeg", "gif", "bmp", "webp", "tiff", "svg"]

/-- Claim C9 read literally: the MIME subtype defaults to `jpeg` whenever
the extension is unrecognized or absent. -/
def toUriClaim (recognized : List String) (readBytes : Option (List Nat))
    (suffix : String) : String :=
  match readBytes with
  | none => ""
  | some bytes =>
    let sfx := pyStripDots (pyLower suffix)
    let sfx := if recognized.contains sfx then sfx else "jpeg"
    "data:image/" ++ sfx ++ ";base64," ++ (⟨b64Encode bytes⟩ : String)

/-! ## Lemmas about the embedded primitives -/

/-- Reading back the key just written. -/
theorem jget_jset_self (kvs : List (String × JValue)) (k : String) (v : JValue) :
    jget (jset kvs k v) k = some v := by
  induction kvs with
  | nil => simp [jget, jset]
  | cons kv rest ih =>
    obtain ⟨k', v'⟩ := kv
    by_cases h : k' = k <;> simp [jget, jset, h, ih]

/-- Writing one key leaves every other key unchanged. -/
theorem jget_jset_ne (kvs : List (String × JValue)) (k k' : String) (v : JValue)
    (h : k' ≠ k) : jget (jset kvs k v) k' = jget kvs k' := by
  induction kvs with
  | nil =>
    simp only [jset, jget]
    rw [if_neg (fun hh : k = k' => h hh.symm)]
  | cons kv rest ih =>
    obtain ⟨k'', v''⟩ := kv
    simp only [jset]
    by_cases hk : k'' = k
    · subst hk
      rw [if_pos rfl]
      simp only [jget]
      rw [if_neg (fun hh : k'' = k' => h hh.symm),
        if_neg (fun hh : k'' = k' => h hh.symm)]
    · rw [if_neg hk]
      simp only [jget]
      by_cases hk' : k'' = k'
      · rw [if_pos hk', if_pos hk']
      · rw [if_neg hk', if_neg hk', ih]

/-- Head of `dropWhile pyWS` never satisfies `pyWS`. -/
theorem dropWhile_pyWS_head (l : List Char) :
    ∀ c ∈ (l.dropWhile pyWS).head?, pyWS c = false := by
  induction l with
  | nil => simp
  | cons c rest ih =>
    by_cases h : pyWS c
    · simpa [List.dropWhile_cons, h] using ih
    · simp [List.dropWhile_cons, h]

/-- A list whose head fails `pyWS` is untouched by `dropWhile pyWS`. -/
theorem dropWhile_pyWS_eq_self (l : List Char)
    (h : ∀ c ∈ l.head?, pyWS c = false) : l.dropWhile pyWS = l := by
  cases l with
  | nil => rfl
  | cons c rest => simp [List.dropWhile_cons, h c (by simp)]

/-- `dropWhile` only removes from the front, so a non-empty result keeps the
last element. -/
theorem getLast?_dropWhile (p : Char → Bool) (l : List Char)
    (h : l.dropWhile p ≠ []) : (l.dropWhile p).getLast? = l.getLast? := by
  induction l with
  | nil => simp at h
  | cons c rest ih =>
    by_cases hc : p c
    · rw [List.dropWhile_cons_of_pos hc] at h ⊢
      rw [ih h]
      have hrest : rest ≠ [] := by
        intro hr
        exact h (by simp [hr])
      cases rest with
      | nil => exact absurd rfl hrest
      | cons d tl => simp [List.getLast?_cons_cons]
    · rw [List.dropWhile_cons_of_neg hc]

/-- A `dropWhile` that erases everything had only satisfying elements. -/
theorem dropWhile_eq_nil_all (p : Char → Bool) (l : List Char)
    (h : l.dropWhile p = []) : ∀ c ∈ l, p c = true :=
  List.dropWhile_eq_nil_iff.mp h

/-- The head of a stripped character list is not whitespace. -/
theorem stripChars_head (l : List Char) :
    ∀ c ∈ (stripChars l).head?, pyWS c = false := by
  intro c hc
  unfold stripChars at hc
  rw [List.head?_reverse] at hc
  by_cases hnil : ((l.dropWhile pyWS).reverse.dropWhile pyWS) = []
  · simp [hnil] at hc
  · rw [getLast?_dropWhile _ _ hnil, List.getLast?_reverse] at hc
    exact dropWhile_pyWS_head l c hc

/-- The last element of a stripped character list is not whitespace. -/
theorem stripChars_getLast (l : List Char) :
    ∀ c ∈ (stripChars l).getLast?, pyWS c = false := by
  intro c hc
  unfold stripChars at hc
  rw [List.getLast?_reverse] at hc
  exact dropWhile_pyWS_head _ c hc

/-- A list with non-whitespace ends is already stripped. -/
theorem stripChars_eq_self (l : List Char)
    (h1 : ∀ c ∈ l.head?, pyWS c = false)
    (h2 : ∀ c ∈ l.getLast?, pyWS c = false) : stripChars l = l := by
  unfold stripChars
  rw [dropWhile_pyWS_eq_self l h1]
  rw [dropWhile_pyWS_eq_self l.reverse (by simpa [List.head?_reverse] using h2)]
  exact l.reverse_reverse

/-- Stripping is idempotent at the character level. -/
theorem stripChars_idem (l : List Char) :
    stripChars (stripChars l) = stripChars l :=
  stripChars_eq_self _ (stripChars_head l) (stripChars_getLast l)

/-- The characters of `pyStrip s`. -/
theorem pyStrip_data (s : String) : (pyStrip s).data = stripChars s.data := rfl

/-- Python `strip` is idempotent. -/
theorem pyStrip_idem (s : String) : pyStrip (pyStrip s) = pyStrip s :=
  congrArg String.mk (stripChars_idem s.data)

/-- Characters of an appended string. -/
theorem str_data_append (a b : String) : (a ++ b).data = a.data ++ b.data := rfl

/-- A string is empty iff it has no characters. -/
theorem str_eq_empty_iff (s : String) : s = "" ↔ s.data = [] := by
  rw [String.ext_iff]

/-- Strip-fixed strings have a non-whitespace first character. -/
theorem stripped_head (s : String) (h : pyStrip s = s) :
    ∀ c ∈ s.data.head?, pyWS c = false := by
  have hd : stripChars s.data = s.data := congrArg String.data h
  intro c hc
  rw [← hd] at hc
  exact stripChars_head s.data c hc

/-- Strip-fixed strings have a non-whitespace last character. -/
theorem stripped_getLast (s : String) (h : pyStrip s = s) :
    ∀ c ∈ s.data.getLast?, pyWS c = false := by
  have hd : stripChars s.data = s.data := congrArg String.data h
  intro c hc
  rw [← hd] at hc
  exact stripChars_getLast s.data c hc

/-- A separator-join of non-empty strip-fixed strings is non-empty and
strip-fixed (its edges are the edges of the first and last part). -/
theorem pyJoin_good (sep : String) (ps : List String)
    (h : ∀ p ∈ ps, p ≠ "" ∧ pyStrip p = p) (hne : ps ≠ []) :
    pyJoin sep ps ≠ "" ∧ pyStrip (pyJoin sep ps) = pyJoin sep ps := by
  induction ps with
  | nil => exact absurd rfl hne
  | cons p rest ih =>
    have hp := h p (List.mem_cons_self p rest)
    cases rest with
    | nil => exact hp
    | cons q tl =>
      have hrest := ih (fun r hr => h r (List.mem_cons_of_mem p hr)) (by simp)
      have hdata : (pyJoin sep (p :: q :: tl)).data
          = p.data ++ (sep.data ++ (pyJoin sep (q :: tl)).data) := by
        show ((p ++ sep) ++ pyJoin sep (q :: tl)).data = _
        rw [String.data_append, String.data_append, List.append_assoc]
      have hpd : p.data ≠ [] := fun hh => hp.1 ((str_eq_empty_iff p).mpr hh)
      have hJd : (pyJoin sep (q :: tl)).data ≠ [] :=
        fun hh => hrest.1 ((str_eq_empty_iff _).mpr hh)
      have hhead : ∀ c ∈ (pyJoin sep (p :: q :: tl)).data.head?, pyWS c = false := by
        intro c hc
        rw [hdata, List.head?_append_of_ne_nil _ hpd] at hc
        exact stripped_head p hp.2 c hc
      have hlast : ∀ c ∈ (pyJoin sep (p :: q :: tl)).data.getLast?, pyWS c = false := by
        intro c hc
        rw [hdata, ← List.append_assoc, List.getLast?_append_of_ne_nil _ hJd] at hc
        exact stripped_getLast _ hrest.2 c hc
      refine ⟨?_, ?_⟩
      · intro hh
        have h0 := (str_eq_empty_iff _).mp hh
        rw [hdata] at h0
        exact hpd (List.append_eq_nil.mp h0).1
      · exact String.ext (by
          rw [pyStrip_data]
          exact stripChars_eq_self _ hhead hlast)

/-- Invariant of the paragraph-splitting loop: all emitted paragraphs are
non-empty and strip-fixed. -/
theorem splitParagraphsLoop_good (lines : List String) :
    ∀ blocks current,
    (∀ q ∈ blocks, q ≠ "" ∧ pyStrip q = q) →
    (∀ p ∈ current, p ≠ "" ∧ pyStrip p = p) →
    ∀ q ∈ splitParagraphsLoop lines blocks current, q ≠ "" ∧ pyStrip q = q := by
  induction lines with
  | nil =>
    intro blocks current hb hc q hq
    simp only [splitParagraphsLoop] at hq
    by_cases hcur : current = []
    · rw [if_pos hcur] at hq
      exact hb q hq
    · rw [if_neg hcur] at hq
      rcases List.mem_append.mp hq with hq | hq
      · exact hb q hq
      · have hqq : q = pyJoin " " current := by simpa using hq
        subst hqq
        exact pyJoin_good " " current hc hcur
  | cons line rest ih =>
    intro blocks current hb hc q hq
    simp only [splitParagraphsLoop] at hq
    by_cases h1 : pyStrip line = ""
    · rw [if_pos h1] at hq
      by_cases h2 : current = []
      · rw [if_pos h2] at hq
        exact ih blocks current hb hc q hq
      · rw [if_neg h2] at hq
        refine ih _ [] ?_ (by simp) q hq
        intro r hr
        rcases List.mem_append.mp hr with hr | hr
        · exact hb r hr
        · have hrr : r = pyJoin " " current := by simpa using hr
          subst hrr
          exact pyJoin_good " " current hc h2
    · rw [if_neg h1] at hq
      refine ih blocks _ hb ?_ q hq
      intro r hr
      rcases List.mem_append.mp hr with hr | hr
      · exact hc r hr
      · have hrr : r = pyStrip line := by simpa using hr
        subst hrr
        exact ⟨h1, pyStrip_idem line⟩

/-- Every paragraph produced by `_split_paragraphs` is non-empty and
strip-fixed. -/
theorem splitParagraphs_good (t : String) :
    ∀ q ∈ splitParagraphs t, q ≠ "" ∧ pyStrip q = q := by
  intro q hq
  unfold splitParagraphs at hq
  by_cases ht : t = ""
  · rw [if_pos ht] at hq
    cases hq
  · rw [if_neg ht] at hq
    exact splitParagraphsLoop_good _ [] [] (by simp) (by simp) q hq

/-- The paragraph loop never returns an empty list once a paragraph is
pending or emitted. -/
theorem splitParagraphsLoop_ne_nil (lines : List String) :
    ∀ blocks current, (blocks ≠ [] ∨ current ≠ []) →
    splitParagraphsLoop lines blocks current ≠ [] := by
  induction lines with
  | nil =>
    intro blocks current hbc
    simp only [splitParagraphsLoop]
    by_cases hcur : current = []
    · rw [if_pos hcur]
      rcases hbc with hb | hc
      · exact hb
      · exact absurd hcur hc
    · rw [if_neg hcur]
      simp
  | cons line rest ih =>
    intro blocks current hbc
    simp only [splitParagraphsLoop]
    by_cases h1 : pyStrip line = ""
    · rw [if_pos h1]
      by_cases h2 : current = []
      · rw [if_pos h2]
        rcases hbc with hb | hc
        · exact ih blocks current (Or.inl hb)
        · exact absurd h2 hc
      · rw [if_neg h2]
        exact ih _ [] (Or.inl (by simp))
    · rw [if_neg h1]
      exact ih blocks _ (Or.inr (by simp))

/-- A non-blank line forces at least one paragraph. -/
theorem splitParagraphsLoop_ne_nil_of_mem (lines : List String) :
    ∀ blocks current, (∃ l ∈ lines, pyStrip l ≠ "") →
    splitParagraphsLoop lines blocks current ≠ [] := by
  induction lines with
  | nil =>
    intro blocks current h
    simp at h
  | cons line rest ih =>
    intro blocks current h
    simp only [splitParagraphsLoop]
    by_cases h1 : pyStrip line = ""
    · rw [if_pos h1]
      have hrest : ∃ l ∈ rest, pyStrip l ≠ "" := by
        rcases h with ⟨l, hl, hlne⟩
        rcases List.mem_cons.mp hl with hl | hl
        · exact absurd (hl ▸ h1) hlne
        · exact ⟨l, hl, hlne⟩
      by_cases h2 : current = []
      · rw [if_pos h2]
        exact ih blocks current hrest
      · rw [if_neg h2]
        exact ih _ [] hrest
    · rw [if_neg h1]
      exact splitParagraphsLoop_ne_nil rest blocks _ (Or.inr (by simp))

/-- Every non-newline character consumed by the splitlines loop ends up in
one of the produced lines. -/
theorem splitlinesAux_mem_char (l acc : List Char) (c : Char)
    (hc : pyWS c = false) (hmem : c ∈ l ∨ c ∈ acc) :
    ∃ line ∈ splitlinesAux l acc, c ∈ line.data := by
  induction l, acc using splitlinesAux.induct with
  | case1 => simp at hmem
  | case2 acc hne =>
    refine ⟨⟨acc.reverse⟩, by simp [splitlinesAux], ?_⟩
    rcases hmem with hm | hm
    · cases hm
    · exact List.mem_reverse.mpr hm
  | case3 rest acc ih =>
    have hcr : ¬ c = '\r' := by
      intro hh
      rw [hh] at hc
      simp [pyWS] at hc
    have hcn : ¬ c = '\n' := by
      intro hh
      rw [hh] at hc
      simp [pyWS] at hc
    rcases hmem with hm | hm
    · rcases List.mem_cons.mp hm with hm | hm
      · exact absurd hm hcr
      · rcases List.mem_cons.mp hm with hm | hm
        · exact absurd hm hcn
        · obtain ⟨line, hline, hcl⟩ := ih (Or.inl hm)
          exact ⟨line, by simp [splitlinesAux, hline], hcl⟩
    · refine ⟨⟨acc.reverse⟩, by simp [splitlinesAux], List.mem_reverse.mpr hm⟩
  | case4 rest acc hpat ih =>
    have hcr : ¬ c = '\r' := by
      intro hh
      rw [hh] at hc
      simp [pyWS] at hc
    rcases hmem with hm | hm
    · rcases List.mem_cons.mp hm with hm | hm
      · exact absurd hm hcr
      · obtain ⟨line, hline, hcl⟩ := ih (Or.inl hm)
        exact ⟨line, by simp [splitlinesAux, hline], hcl⟩
    · refine ⟨⟨acc.reverse⟩, by simp [splitlinesAux], List.mem_reverse.mpr hm⟩
  | case5 rest acc ih =>
    have hcn : ¬ c = '\n' := by
      intro hh
      rw [hh] at hc
      simp [pyWS] at hc
    rcases hmem with hm | hm
    · rcases List.mem_cons.mp hm with hm | hm
      · exact absurd hm hcn
      · obtain ⟨line, hline, hcl⟩ := ih (Or.inl hm)
        exact ⟨line, by simp [splitlinesAux, hline], hcl⟩
    · refine ⟨⟨acc.reverse⟩, by simp [splitlinesAux], List.mem_reverse.mpr hm⟩
  | case6 d rest acc hp1 hp2 hp3 ih =>
    rcases hmem with hm | hm
    · rcases List.mem_cons.mp hm with hm | hm
      · obtain ⟨line, hline, hcl⟩ := ih (Or.inr (by simp [hm]))
        exact ⟨line, by simpa [splitlinesAux, hp1, hp2, hp3] using hline, hcl⟩
      · obtain ⟨line, hline, hcl⟩ := ih (Or.inl hm)
        exact ⟨line, by simpa [splitlinesAux, hp1, hp2, hp3] using hline, hcl⟩
    · obtain ⟨line, hline, hcl⟩ := ih (Or.inr (List.mem_cons_of_mem _ hm))
      exact ⟨line, by simpa [splitlinesAux, hp1, hp2, hp3] using hline, hcl⟩

/-- A string that strips to empty consists of whitespace only. -/
theorem strip_empty_all_ws (s : String) (h : pyStrip s = "") :
    ∀ c ∈ s.data, pyWS c = true := by
  have h0 : stripChars s.data = [] := congrArg String.data h
  intro c hc
  by_cases hd : s.data.dropWhile pyWS = []
  · exact dropWhile_eq_nil_all _ _ hd c hc
  · exfalso
    unfold stripChars at h0
    rw [List.reverse_eq_nil_iff] at h0
    have hall := dropWhile_eq_nil_all _ _ h0
    obtain ⟨d, hdhead⟩ : ∃ d, (s.data.dropWhile pyWS).head? = some d := by
      cases hdw : s.data.dropWhile pyWS with
      | nil => exact absurd hdw hd
      | cons d tl => exact ⟨d, by simp⟩
    have hwd := dropWhile_pyWS_head s.data d (by rw [hdhead]; rfl)
    have hmem : d ∈ s.data.dropWhile pyWS := List.mem_of_mem_head? (by rw [hdhead]; rfl)
    have hws := hall d (List.mem_reverse.mpr hmem)
    rw [hwd] at hws
    cases hws

/-- A non-empty strip-fixed text has at least one paragraph. -/
theorem splitParagraphs_ne_nil (t : String) (hs : pyStrip t = t) (ht : t ≠ "") :
    splitParagraphs t ≠ [] := by
  unfold splitParagraphs
  rw [if_neg ht]
  apply splitParagraphsLoop_ne_nil_of_mem
  have hdata : t.data ≠ [] := fun hh => ht ((str_eq_empty_iff t).mpr hh)
  obtain ⟨c, hchead⟩ : ∃ c, t.data.head? = some c := by
    cases hdw : t.data with
    | nil => exact absurd hdw hdata
    | cons c tl => exact ⟨c, by simp⟩
  have hcw : pyWS c = false := stripped_head t hs c (by rw [hchead]; rfl)
  have hcm : c ∈ t.data := List.mem_of_mem_head? (by rw [hchead]; rfl)
  obtain ⟨line, hline, hcl⟩ := splitlinesAux_mem_char t.data [] c hcw (Or.inl hcm)
  refine ⟨line, hline, ?_⟩
  intro hblank
  have := strip_empty_all_ws line hblank c hcl
  rw [hcw] at this
  cases this

/-- All paragraphs collected from a description list are non-empty and
strip-fixed. -/
theorem coerceListItems_good (xs : List JValue) :
    ∀ i, ∀ p ∈ (coerceListItems xs i).1, p ≠ "" ∧ pyStrip p = p := by
  induction xs with
  | nil =>
    intro i p hp
    cases hp
  | cons item rest ih =>
    intro i p hp
    cases item with
    | str s =>
      simp only [coerceListItems] at hp
      by_cases hs : pyStrip s = ""
      · rw [if_pos hs] at hp
        exact ih (i + 1) p hp
      · rw [if_neg hs] at hp
        rcases List.mem_cons.mp hp with hp | hp
        · subst hp
          exact ⟨hs, pyStrip_idem s⟩
        · exact ih (i + 1) p hp
    | obj m =>
      simp only [coerceListItems] at hp
      cases hb : blockFromMapping m (some i) with
      | none =>
        rw [hb] at hp
        exact ih (i + 1) p hp
      | some b =>
        rw [hb] at hp
        exact ih (i + 1) p hp
    | null => exact ih (i + 1) p hp
    | bool b => exact ih (i + 1) p hp
    | num s => exact ih (i + 1) p hp
    | arr ys => exact ih (i + 1) p hp

/-- Coercing a list of non-empty strip-fixed strings returns exactly those
strings as paragraphs and no blocks. -/
theorem coerceListItems_strs (qs : List String)
    (h : ∀ q ∈ qs, q ≠ "" ∧ pyStrip q = q) :
    ∀ i, coerceListItems (qs.map .str) i = (qs, []) := by
  induction qs with
  | nil => intro i; rfl
  | cons q rest ih =>
    intro i
    have hq := h q (List.mem_cons_self q rest)
    simp only [List.map, coerceListItems,
      ih (fun r hr => h r (List.mem_cons_of_mem q hr)) (i + 1)]
    rw [hq.2, if_neg hq.1]

/-- The plain text produced by `_coerce_desc_value` is strip-fixed,
provided a numeric description carries a canonical (whitespace-free)
rendering, as every `str()` of a Python number does. -/
theorem coerceDescValue_stripped (v : JValue)
    (hnum : ∀ s, v = .num s → pyStrip s = s) :
    pyStrip (coerceDescValue v).1 = (coerceDescValue v).1 := by
  cases v with
  | null => decide
  | str s => exact pyStrip_idem s
  | bool b => cases b <;> decide
  | num s => exact hnum s rfl
  | arr xs =>
    simp only [coerceDescValue]
    by_cases hps : (coerceListItems xs 0).1 = []
    · rw [hps]
      decide
    · exact (pyJoin_good "\n" _ (coerceListItems_good xs 0) hps).2
  | obj m =>
    simp only [coerceDescValue]
    cases blockFromMapping m none <;> rfl

/-- The name produced by normalization is strip-fixed. -/
theorem normalizeObj_name_stripped (kvs : List (String × JValue)) :
    pyStrip (normalizeObj kvs).name = (normalizeObj kvs).name :=
  pyStrip_idem _

/-- The price produced by normalization is strip-fixed. -/
theorem normalizeObj_price_stripped (kvs : List (String × JValue)) :
    pyStrip (normalizeObj kvs).price = (normalizeObj kvs).price :=
  pyStrip_idem _

/-- The description produced by normalization is strip-fixed (numeric
descriptions assumed canonically rendered). -/
theorem normalizeObj_description_stripped (kvs : List (String × JValue))
    (hnum : ∀ s, jget kvs "description" = some (.num s) → pyStrip s = s) :
    pyStrip (normalizeObj kvs).description = (normalizeObj kvs).description := by
  have hnum' : ∀ s, dget kvs "description" = .num s → pyStrip s = s := by
    intro s hs
    apply hnum
    unfold dget at hs
    cases hj : jget kvs "description" with
    | none =>
      rw [hj] at hs
      cases hs
    | some v =>
      rw [hj] at hs
      simp at hs
      rw [hs]
  simp only [normalizeObj]
  by_cases hde : (coerceDescValue (dget kvs "description")).1 = ""
  · rw [if_pos hde]
    cases hj : jget kvs "desc" with
    | none => rw [hde]; rfl
    | some v =>
      cases v with
      | str s => exact pyStrip_idem s
      | null => rw [hde]; rfl
      | bool b => rw [hde]; rfl
      | num s => rw [hde]; rfl
      | arr ys => rw [hde]; rfl
      | obj m => rw [hde]; rfl
  · rw [if_neg hde]
    exact coerceDescValue_stripped _ hnum'

/-- Full characterization of `_prepare_json_payload` on a structured
origin: the written values of the four live keys, and the untouched value
of every other key. -/
theorem prepareJsonPayload_props (kvs : List (String × JValue)) (data : EditData) :
    jget (prepareJsonPayload (some (.obj kvs)) data) "name" = some (.str data.name) ∧
    jget (prepareJsonPayload (some (.obj kvs)) data) "price" = some (.str data.price) ∧
    jget (prepareJsonPayload (some (.obj kvs)) data) "description"
      = some (convertDescForJson (dget kvs "description") data.desc) ∧
    jget (prepareJsonPayload (some (.obj kvs)) data) "desc"
      = (if (jget kvs "desc").isSome then some (.str data.desc) else none) ∧
    (∀ k, k ≠ "name" → k ≠ "price" → k ≠ "description" → k ≠ "desc" →
      jget (prepareJsonPayload (some (.obj kvs)) data) k = jget kvs k) := by
  simp only [prepareJsonPayload]
  set A := jset (jset kvs "name" (.str data.name)) "price" (.str data.price) with hA
  have hAdesc : dget A "description" = dget kvs "description" := by
    unfold dget
    rw [hA, jget_jset_ne _ _ _ _ (by decide), jget_jset_ne _ _ _ _ (by decide)]
  set B := jset A "description" (convertDescForJson (dget A "description") data.desc)
    with hB
  have hBdesckey : jget B "desc" = jget kvs "desc" := by
    rw [hB, jget_jset_ne _ _ _ _ (by decide), hA,
      jget_jset_ne _ _ _ _ (by decide), jget_jset_ne _ _ _ _ (by decide)]
  have hBname : jget B "name" = some (.str data.name) := by
    rw [hB, jget_jset_ne _ _ _ _ (by decide), hA,
      jget_jset_ne _ _ _ _ (by decide), jget_jset_self]
  have hBprice : jget B "price" = some (.str data.price) := by
    rw [hB, jget_jset_ne _ _ _ _ (by decide), hA, jget_jset_self]
  have hBdesc : jget B "description"
      = some (convertDescForJson (dget kvs "description") data.desc) := by
    rw [hB, jget_jset_self, hAdesc]
  by_cases hd : (jget B "desc").isSome
  · rw [if_pos hd]
    rw [hBdesckey] at hd
    refine ⟨?_, ?_, ?_, ?_, ?_⟩
    · rw [jget_jset_ne _ _ _ _ (by decide), hBname]
    · rw [jget_jset_ne _ _ _ _ (by decide), hBprice]
    · rw [jget_jset_ne _ _ _ _ (by decide), hBdesc]
    · rw [jget_jset_self, if_pos hd]
    · intro k hk1 hk2 hk3 hk4
      rw [jget_jset_ne _ _ _ _ hk4, hB, jget_jset_ne _ _ _ _ hk3, hA,
        jget_jset_ne _ _ _ _ hk2, jget_jset_ne _ _ _ _ hk1]
  · rw [if_neg hd]
    rw [hBdesckey] at hd
    refine ⟨hBname, hBprice, hBdesc, ?_, ?_⟩
    · rw [hBdesckey]
      rw [if_neg hd]
      exact Option.not_isSome_iff_eq_none.mp hd
    · intro k hk1 hk2 hk3 hk4
      rw [hB, jget_jset_ne _ _ _ _ hk3, hA,
        jget_jset_ne _ _ _ _ hk2, jget_jset_ne _ _ _ _ hk1]

/-- Unfolding the description component of normalization. -/
theorem normalizeObj_description_eq (kvs : List (String × JValue)) :
    (normalizeObj kvs).description =
      (if (coerceDescValue (dget kvs "description")).1 = "" then
        descFallback (jget kvs "desc") (coerceDescValue (dget kvs "description")).1
      else (coerceDescValue (dget kvs "description")).1) := rfl

/-- Unfolding the name component of normalization. -/
theorem normalizeObj_name_eq (kvs : List (String × JValue)) :
    (normalizeObj kvs).name = pyStrip (pyStr ((jget kvs "name").getD (.str ""))) := rfl

/-- Unfolding the price component of normalization. -/
theorem normalizeObj_price_eq (kvs : List (String × JValue)) :
    (normalizeObj kvs).price = pyStrip (pyStr ((jget kvs "price").getD (.str ""))) := rfl

/-- The fallback on a string-valued `desc` key. -/
theorem descFallback_str (s : String) (d : String) :
    descFallback (some (.str s)) d = pyStrip s := rfl

/-- The fallback on a missing `desc` key. -/
theorem descFallback_none (d : String) : descFallback none d = d := rfl

/-- What re-parsing the serialized payload yields for the description:
unchanged for a non-list original shape, the newline-join of the
re-split paragraphs for a list shape. -/
theorem reparse_description (kvs : List (String × JValue)) (data : EditData)
    (hdd : data.desc = (normalizeObj kvs).description)
    (hnum : ∀ s, jget kvs "description" = some (.num s) → pyStrip s = s) :
    (normalizeObj (prepareJsonPayload (some (.obj kvs)) data)).description
      = (if (dget kvs "description").isArr then
          pyJoin "\n" (splitParagraphs (normalizeObj kvs).description)
        else (normalizeObj kvs).description) := by
  obtain ⟨hname, hprice, hdesc, hdesckey, hframe⟩ := prepareJsonPayload_props kvs data
  have hmdesc : pyStrip (normalizeObj kvs).description = (normalizeObj kvs).description :=
    normalizeObj_description_stripped kvs hnum
  set D := (normalizeObj kvs).description with hD
  set payload := prepareJsonPayload (some (.obj kvs)) data with hpayload
  have hdget : dget payload "description"
      = convertDescForJson (dget kvs "description") data.desc := by
    unfold dget
    rw [hdesc, Option.getD_some]
    rfl
  rw [normalizeObj_description_eq payload, hdget, hdesckey, hdd]
  cases hv : dget kvs "description"
  case arr ys =>
    have hconv : convertDescForJson (.arr ys) D = .arr ((splitParagraphs D).map .str) := by
      simp only [convertDescForJson]
      rw [hmdesc]
    rw [hconv]
    have hqs := splitParagraphs_good D
    simp only [coerceDescValue, coerceListItems_strs (splitParagraphs D) hqs 0,
      JValue.isArr, if_true]
    by_cases hq : splitParagraphs D = []
    · have hDempty : D = "" := by
        by_contra hne
        exact splitParagraphs_ne_nil D hmdesc hne hq
      rw [hq]
      rw [show pyJoin "\n" ([] : List String) = "" from rfl, if_pos rfl]
      by_cases hsome : (jget kvs "desc").isSome
      · rw [if_pos hsome, descFallback_str, hDempty]
        decide
      · rw [if_neg hsome, descFallback_none]
    · have hjne := (pyJoin_good "\n" (splitParagraphs D) hqs hq).1
      rw [if_neg hjne]
  all_goals
    simp only [convertDescForJson, coerceDescValue, JValue.isArr,
      Bool.false_eq_true, if_false, pyStrip_idem]
    rw [hmdesc]
    by_cases hDe : D = ""
    · rw [if_pos hDe]
      by_cases hsome : (jget kvs "desc").isSome
      · rw [if_pos hsome, descFallback_str, hmdesc]
      · rw [if_neg hsome, descFallback_none]
    · rw [if_neg hDe]

/-- Re-parsing the serialized payload reproduces the name. -/
theorem reparse_name (kvs : List (String × JValue)) (data : EditData)
    (hdn : data.name = (normalizeObj kvs).name) :
    (normalizeObj (prepareJsonPayload (some (.obj kvs)) data)).name
      = (normalizeObj kvs).name := by
  obtain ⟨hname, _, _, _, _⟩ := prepareJsonPayload_props kvs data
  rw [normalizeObj_name_eq, hname, Option.getD_some,
    show pyStr (.str data.name) = data.name from rfl, hdn]
  exact normalizeObj_name_stripped kvs

/-- Re-parsing the serialized payload reproduces the price. -/
theorem reparse_price (kvs : List (String × JValue)) (data : EditData)
    (hdp : data.price = (normalizeObj kvs).price) :
    (normalizeObj (prepareJsonPayload (some (.obj kvs)) data)).price
      = (normalizeObj kvs).price := by
  obtain ⟨_, hprice, _, _, _⟩ := prepareJsonPayload_props kvs data
  rw [normalizeObj_price_eq, hprice, Option.getD_some,
    show pyStr (.str data.price) = data.price from rfl, hdp]
  exact normalizeObj_price_stripped kvs

/-! ## Claim theorems -/

/-- Claim C1, counterexample: the structured file
`{"name": "A", "price": "1", "description": ["line one", "line two"]}`
parses to the description plain text `"line one\nline two"`, but
serializing with all field values unchanged and re-parsing yields
`"line one line two"` — the two list entries have been merged into one
paragraph, so the description value is NOT reproduced. -/
theorem structured_roundtrip_counterexample :
    (normalizeObj [("name", JValue.str "A"), ("price", JValue.str "1"),
        ("description", JValue.arr [JValue.str "line one", JValue.str "line two"])]).description
      = "line one\nline two" ∧
    (normalizeObj (prepareJsonPayload
        (some (.obj [("name", JValue.str "A"), ("price", JValue.str "1"),
          ("description", JValue.arr [JValue.str "line one", JValue.str "line two"])]))
        ⟨"A", "1", "line one\nline two"⟩)).description
      = "line one line two" ∧
    "line one line two" ≠ "line one\nline two" := by
  refine ⟨rfl, rfl, by decide⟩

/-- Claim C1 (amended): for a structured metadata object re-serialized with
its parsed field values unchanged, re-parsing reproduces `name` and `price`
always and every key other than `name`/`price`/`description`/`desc`
verbatim; the `description` is reproduced whenever the original
`description` value was not a JSON list, and when it was a list the
re-parsed description is instead the newline-join of the re-split
paragraphs of the plain text (intra-paragraph newlines collapse to single
spaces).  The hypothesis on numeric descriptions states that their stored
rendering is whitespace-free, as is true of every Python `str()` of a
number. -/
theorem structured_roundtrip_amended (kvs : List (String × JValue))
    (data : EditData)
    (hdn : data.name = (normalizeObj kvs).name)
    (hdp : data.price = (normalizeObj kvs).price)
    (hdd : data.desc = (normalizeObj kvs).description)
    (hnum : ∀ s, jget kvs "description" = some (.num s) → pyStrip s = s) :
    normalizeMetadata (.obj (prepareJsonPayload (some (.obj kvs)) data))
      = .ok (normalizeObj (prepareJsonPayload (some (.obj kvs)) data)) ∧
    (normalizeObj (prepareJsonPayload (some (.obj kvs)) data)).name
      = (normalizeObj kvs).name ∧
    (normalizeObj (prepareJsonPayload (some (.obj kvs)) data)).price
      = (normalizeObj kvs).price ∧
    (normalizeObj (prepareJsonPayload (some (.obj kvs)) data)).description
      = (if (dget kvs "description").isArr then
          pyJoin "\n" (splitParagraphs (normalizeObj kvs).description)
        else (normalizeObj kvs).description) ∧
    (∀ k, k ≠ "name" → k ≠ "price" → k ≠ "description" → k ≠ "desc" →
      jget (prepareJsonPayload (some (.obj kvs)) data) k = jget kvs k) :=
  ⟨rfl, reparse_name kvs data hdn, reparse_price kvs data hdp,
    reparse_description kvs data hdd hnum,
    (prepareJsonPayload_props kvs data).2.2.2.2⟩

/-- Witness for claim C1's amended theorem at the concrete file
`{"name": " A ", "price": "9", "desc": " hi ", "extra": true}` (scalar
description shape): the description survives the round trip. -/
theorem structured_roundtrip_witness :
    (normalizeObj (prepareJsonPayload
        (some (.obj [("name", JValue.str " A "), ("price", JValue.str "9"),
          ("desc", JValue.str " hi "), ("extra", JValue.bool true)]))
        ⟨"A", "9", "hi"⟩)).description = "hi" :=
  (structured_roundtrip_amended
    [("name", JValue.str " A "), ("price", JValue.str "9"),
      ("desc", JValue.str " hi "), ("extra", JValue.bool true)]
    ⟨"A", "9", "hi"⟩ rfl rfl rfl
    (fun s h => Option.noConfusion
      (show (none : Option JValue) = some (JValue.num s) from h))).2.2.2.1

/-- Claim C4: serialization writes `name` and `price`, rewrites
`description` shape-preservingly (a paragraph list when the original value
was a list, else the trimmed edited text as a scalar string), rewrites
`desc` only when that key existed in the origin, and leaves every other
key — `description_blocks`, `sections` and `highlights` included —
untouched. -/
theorem serialize_frame_effect (kvs : List (String × JValue)) (data : EditData) :
    jget (prepareJsonPayload (some (.obj kvs)) data) "name"
      = some (.str data.name) ∧
    jget (prepareJsonPayload (some (.obj kvs)) data) "price"
      = some (.str data.price) ∧
    jget (prepareJsonPayload (some (.obj kvs)) data) "description"
      = some (if (dget kvs "description").isArr then
          .arr ((splitParagraphs (pyStrip data.desc)).map .str)
        else .str (pyStrip data.desc)) ∧
    jget (prepareJsonPayload (some (.obj kvs)) data) "desc"
      = (if (jget kvs "desc").isSome then some (.str data.desc) else none) ∧
    (∀ k, k ≠ "name" → k ≠ "price" → k ≠ "description" → k ≠ "desc" →
      jget (prepareJsonPayload (some (.obj kvs)) data) k = jget kvs k) := by
  obtain ⟨h1, h2, h3, h4, h5⟩ := prepareJsonPayload_props kvs data
  refine ⟨h1, h2, ?_, h4, h5⟩
  rw [h3]
  congr 1
  cases dget kvs "description" <;>
    simp [convertDescForJson, JValue.isArr]

/-- Witness for claim C4 at a concrete origin holding `description_blocks`
and an unknown key: both are preserved verbatim, and the list-shaped
description is rewritten as a paragraph list. -/
theorem serialize_frame_effect_witness :
    jget (prepareJsonPayload
        (some (.obj [("description", JValue.arr [JValue.str "p"]),
          ("description_blocks", JValue.arr []), ("extra", JValue.num "7")]))
        ⟨"N", "5", "d"⟩) "extra" = some (JValue.num "7") ∧
    jget (prepareJsonPayload
        (some (.obj [("description", JValue.arr [JValue.str "p"]),
          ("description_blocks", JValue.arr []), ("extra", JValue.num "7")]))
        ⟨"N", "5", "d"⟩) "description_blocks" = some (JValue.arr []) :=
  ⟨((serialize_frame_effect
      [("description", JValue.arr [JValue.str "p"]),
        ("description_blocks", JValue.arr []), ("extra", JValue.num "7")]
      ⟨"N", "5", "d"⟩).2.2.2.2 "extra"
      (by decide) (by decide) (by decide) (by decide)).trans rfl,
    ((serialize_frame_effect
      [("description", JValue.arr [JValue.str "p"]),
        ("description_blocks", JValue.arr []), ("extra", JValue.num "7")]
      ⟨"N", "5", "d"⟩).2.2.2.2 "description_blocks"
      (by decide) (by decide) (by decide) (by decide)).trans rfl⟩

/-- The one-pass list coercion agrees with the `filterMap`/`enumFrom`
presentation of the shape table. -/
theorem coerceListItems_eq_spec (xs : List JValue) : ∀ i,
    coerceListItems xs i =
      (xs.filterMap (fun v =>
        match v with
        | .str s => if pyStrip s = "" then none else some (pyStrip s)
        | _ => none),
      (List.enumFrom i xs).filterMap (fun p =>
        match p.2 with
        | .obj m => blockFromMapping m (some p.1)
        | _ => none)) := by
  induction xs with
  | nil => intro i; rfl
  | cons x rest ih =>
    intro i
    cases x with
    | str s =>
      simp only [coerceListItems, ih (i + 1), List.filterMap_cons, List.enumFrom]
      by_cases hs : pyStrip s = "" <;> simp [hs]
    | obj m =>
      simp only [coerceListItems, ih (i + 1), List.filterMap_cons, List.enumFrom]
      cases blockFromMapping m (some i) <;> simp
    | null => simp only [coerceListItems, ih (i + 1), List.filterMap_cons, List.enumFrom]
    | bool b => simp only [coerceListItems, ih (i + 1), List.filterMap_cons, List.enumFrom]
    | num s => simp only [coerceListItems, ih (i + 1), List.filterMap_cons, List.enumFrom]
    | arr ys => simp only [coerceListItems, ih (i + 1), List.filterMap_cons, List.enumFrom]

/-- Claim C2: the description normalizer implements the shape table
exactly — absent/null gives `("", [])`, a string its trim, a number its
stringification, a list collects the non-empty trimmed strings
newline-joined into the plain text and maps the objects (at their list
positions) to blocks, a single object gives at most one block, and any
other scalar its stringification.  (Python booleans pass the
`isinstance(value, (int, float))` test and stringify identically either
way.) -/
theorem coerce_desc_table (v : JValue) :
    coerceDescValue v = coerceDescValueSpec v := by
  cases v with
  | null => rfl
  | bool b => rfl
  | num s => rfl
  | str s => rfl
  | arr xs =>
    simp only [coerceDescValue, coerceDescValueSpec, List.enum,
      coerceListItems_eq_spec xs 0]
  | obj m =>
    simp only [coerceDescValue, coerceDescValueSpec]
    cases blockFromMapping m none <;> rfl

/-- The Python `or`-chain over the five content keys picks the first truthy
value and otherwise falls through to the last `get`. -/
theorem contentChain_eq (m : List (String × JValue)) :
    pyOr (pyOr (pyOr (pyOr (dget m "text") (dget m "content")) (dget m "desc"))
      (dget m "description")) (dget m "value")
    = (firstTruthy m ["text", "content", "desc", "description", "value"]).getD
        (dget m "value") := by
  by_cases h1 : pyTruthy (dget m "text") <;>
  by_cases h2 : pyTruthy (dget m "content") <;>
  by_cases h3 : pyTruthy (dget m "desc") <;>
  by_cases h4 : pyTruthy (dget m "description") <;>
  by_cases h5 : pyTruthy (dget m "value") <;>
  simp [firstTruthy, pyOr, h1, h2, h3, h4, h5]

/-- The Python `or`-chain over the three title keys, guarded by truthiness,
matches the first-truthy-key presentation. -/
theorem titleChain_eq (m : List (String × JValue)) :
    (if pyTruthy (pyOr (pyOr (dget m "title") (dget m "label")) (dget m "name"))
     then pyStrip (pyStr (pyOr (pyOr (dget m "title") (dget m "label")) (dget m "name")))
     else "")
    = (match firstTruthy m ["title", "label", "name"] with
       | some tv => pyStrip (pyStr tv)
       | none => "") := by
  by_cases h1 : pyTruthy (dget m "title") <;>
  by_cases h2 : pyTruthy (dget m "label") <;>
  by_cases h3 : pyTruthy (dget m "name") <;>
  simp [firstTruthy, pyOr, h1, h2, h3]

/-- Claim C3, counterexample: on the mapping
`{"title": " ", "text": "", "content": "hi"}` with position `0`, the claim
(first PRESENT key: content from `text` is `""`, which trims empty)
predicts no block; the code (first TRUTHY value) skips the falsy `""` at
`text`, takes `"hi"` from `content`, and — because the present-but-blank
title strips empty — applies the positional default title. -/
theorem block_mapping_counterexample :
    blockFromMappingClaim
      [("title", JValue.str " "), ("text", JValue.str ""), ("content", JValue.str "hi")]
      (some 0) = none ∧
    blockFromMapping
      [("title", JValue.str " "), ("text", JValue.str ""), ("content", JValue.str "hi")]
      (some 0) = some ⟨"要点 1", "hi"⟩ :=
  ⟨rfl, rfl⟩

/-- Claim C3 (amended): the object-to-block mapping takes title from the
first TRUTHY value among `title`/`label`/`name` and content from the first
truthy value among `text`/`content`/`desc`/`description`/`value`, falling
through to the `value` entry when none is truthy; it yields no block
exactly when that content result is null/absent or its stringification
trims to empty; and whenever the selected title stringifies-and-trims to
empty, the positional default `要点 {position+1}` applies when a position
is supplied, else the empty string. -/
theorem block_mapping_amended (m : List (String × JValue)) (idx : Option Nat) :
    blockFromMapping m idx = blockFromMappingAmended m idx := by
  simp only [blockFromMapping, blockFromMappingAmended]
  rw [← contentChain_eq]
  cases hcr : pyOr (pyOr (pyOr (pyOr (dget m "text") (dget m "content")) (dget m "desc"))
      (dget m "description")) (dget m "value") <;>
    first
      | rfl
      | rw [titleChain_eq]

/-- Reduction of the parser on a non-empty structured-looking file. -/
theorem parseMetadataFile_json_eq (jsonParse : String → Option JValue)
    (suffix content : String) (hne : pyStrip content ≠ "")
    (hb : looksLikeJson suffix (pyStrip content) = true) :
    parseMetadataFile jsonParse suffix content =
      (match jsonParse (pyStrip content) with
      | none => .error .malformedJson
      | some raw =>
        match normalizeMetadata raw with
        | .ok m => .ok (m, .json raw)
        | .error e => .error e) := by
  unfold parseMetadataFile
  rw [if_neg hne, if_pos hb]

/-- Reduction of the parser on a non-empty legacy-looking file. -/
theorem parseMetadataFile_legacy_eq (jsonParse : String → Option JValue)
    (suffix content : String) (hne : pyStrip content ≠ "")
    (hb : looksLikeJson suffix (pyStrip content) = false) :
    parseMetadataFile jsonParse suffix content
      = .ok (parseLegacyMetadata (pyStrip content), .text (pyStrip content)) := by
  unfold parseMetadataFile
  rw [if_neg hne, if_neg (by simp [hb])]

/-- Claim C5: the parser fails with `EmptyMetadata` exactly on
whitespace-only content; a non-empty file is treated as structured exactly
when the extension marks JSON or the stripped content starts with a brace;
a structured file fails with `MalformedJson` exactly when `json.loads`
fails and with `InvalidMetadataShape` exactly when the parsed root is not
an object (otherwise it succeeds); legacy-text parsing always succeeds. -/
theorem parse_error_taxonomy (jsonParse : String → Option JValue)
    (suffix content : String) :
    (parseMetadataFile jsonParse suffix content = .error .emptyMetadata ↔
      pyStrip content = "") ∧
    (pyStrip content ≠ "" → looksLikeJson suffix (pyStrip content) = true →
      (parseMetadataFile jsonParse suffix content = .error .malformedJson ↔
        jsonParse (pyStrip content) = none) ∧
      (parseMetadataFile jsonParse suffix content = .error .invalidShape ↔
        ∃ v, jsonParse (pyStrip content) = some v ∧ v.isObj = false) ∧
      (∀ kvs, jsonParse (pyStrip content) = some (.obj kvs) →
        parseMetadataFile jsonParse suffix content
          = .ok (normalizeObj kvs, .json (.obj kvs)))) ∧
    (pyStrip content ≠ "" → looksLikeJson suffix (pyStrip content) = false →
      parseMetadataFile jsonParse suffix content
        = .ok (parseLegacyMetadata (pyStrip content), .text (pyStrip content))) := by
  refine ⟨?_, ?_, fun hne hb => parseMetadataFile_legacy_eq jsonParse suffix content hne hb⟩
  · constructor
    · intro h
      by_contra hne
      cases hb : looksLikeJson suffix (pyStrip content) with
      | true =>
        rw [parseMetadataFile_json_eq jsonParse suffix content hne hb] at h
        cases hj : jsonParse (pyStrip content) with
        | none =>
          rw [hj] at h
          simp at h
        | some v =>
          rw [hj] at h
          cases v <;> simp [normalizeMetadata] at h
      | false =>
        rw [parseMetadataFile_legacy_eq jsonParse suffix content hne hb] at h
        simp at h
    · intro he
      unfold parseMetadataFile
      rw [if_pos he]
  · intro hne hb
    rw [parseMetadataFile_json_eq jsonParse suffix content hne hb]
    cases hj : jsonParse (pyStrip content) with
    | none =>
      refine ⟨by simp, by simp [JValue.isObj], ?_⟩
      intro kvs hkvs
      cases hkvs
    | some v =>
      refine ⟨?_, ?_, ?_⟩
      · cases v <;> simp [normalizeMetadata]
      · cases v <;> simp [normalizeMetadata, JValue.isObj]
      · intro kvs hkvs
        have hv : v = .obj kvs := by
          simpa using hkvs
        subst hv
        simp [normalizeMetadata]

/-- Witness for claim C5 at concrete inputs: a whitespace-only file fails
with `EmptyMetadata`, and a `.txt` file that does not look structured
parses as legacy text. -/
theorem parse_error_taxonomy_witness :
    parseMetadataFile (fun _ => none) ".json" " \n " = .error .emptyMetadata ∧
    parseMetadataFile (fun _ => none) ".txt" "名称：X"
      = .ok (parseLegacyMetadata "名称：X", .text "名称：X") :=
  ⟨(parse_error_taxonomy (fun _ => none) ".json" " \n ").1.mpr (by decide),
    (parse_error_taxonomy (fun _ => none) ".txt" "名称：X").2.2 (by decide) (by decide)⟩

/-- A prefix check succeeding forces the matched head character. -/
theorem isPrefixOf_head (c : Char) (p : List Char) (l : List Char)
    (h : List.isPrefixOf (c :: p) l = true) :
    ∃ tl, l = c :: tl ∧ List.isPrefixOf p tl = true := by
  cases l with
  | nil => exact Bool.noConfusion h
  | cons e tl =>
    rw [show List.isPrefixOf (c :: p) (e :: tl)
        = ((c == e) && List.isPrefixOf p tl) from rfl, Bool.and_eq_true] at h
    have hce : c = e := eq_of_beq h.1
    exact ⟨tl, by rw [hce], h.2⟩

/-- A string cannot start with two labels whose first characters differ. -/
theorem pyStartsWith_false_of_head_ne (s lab1 lab2 : String) (c d : Char)
    (p q : List Char) (h1 : lab1.data = c :: p) (h2 : lab2.data = d :: q)
    (hne : (d == c) = false) (h : pyStartsWith s lab1 = true) :
    pyStartsWith s lab2 = false := by
  unfold pyStartsWith at h ⊢
  rw [h1] at h
  rw [h2]
  obtain ⟨tl, htl, _⟩ := isPrefixOf_head c p s.data h
  rw [htl, show List.isPrefixOf (d :: q) (c :: tl)
    = ((d == c) && List.isPrefixOf q tl) from rfl, hne, Bool.false_and]

/-- A string starting with a non-empty label is non-empty. -/
theorem pyStartsWith_ne_empty (s lab : String) (c : Char) (p : List Char)
    (hl : lab.data = c :: p) (h : pyStartsWith s lab = true) : ¬ s = "" := by
  intro hs
  rw [hs] at h
  unfold pyStartsWith at h
  rw [hl, show ("" : String).data = ([] : List Char) from by decide] at h
  exact Bool.noConfusion h

/-- Unpacking "this line is not a label line" into the three prefix facts. -/
theorem isRecognizedLine_false (raw : String) (h : isRecognizedLine raw = false) :
    pyStartsWith (pyStrip raw) "名称：" = false ∧
    pyStartsWith (pyStrip raw) "介绍：" = false ∧
    pyStartsWith (pyStrip raw) "价格：" = false := by
  unfold isRecognizedLine at h
  simp only [Bool.or_eq_false_iff] at h
  exact ⟨h.1.1, h.1.2, h.2⟩

/-- While collecting, an unrecognized line (blank or not) contributes its
stripped text — `""` for a blank line — to the description lines. -/
theorem legacyLoop_cons_unrecognized_true (raw : String) (rest : List String)
    (name price : String) (dl : List String) (h : isRecognizedLine raw = false) :
    legacyLoop (raw :: rest) name price dl true
      = legacyLoop rest name price (dl ++ [pyStrip raw]) true := by
  obtain ⟨h1, h2, h3⟩ := isRecognizedLine_false raw h
  simp only [legacyLoop]
  by_cases hb : pyStrip raw = ""
  · rw [if_pos hb, if_pos trivial, hb]
  · rw [if_neg hb, if_neg (by simp [h1]), if_neg (by simp [h2]),
      if_neg (by simp [h3]), if_pos trivial]

/-- Outside a continuation, an unrecognized line has no effect. -/
theorem legacyLoop_cons_unrecognized_false (raw : String) (rest : List String)
    (name price : String) (dl : List String) (h : isRecognizedLine raw = false) :
    legacyLoop (raw :: rest) name price dl false
      = legacyLoop rest name price dl false := by
  obtain ⟨h1, h2, h3⟩ := isRecognizedLine_false raw h
  simp only [legacyLoop]
  by_cases hb : pyStrip raw = ""
  · rw [if_pos hb, if_neg (Bool.false_ne_true)]
  · rw [if_neg hb, if_neg (by simp [h1]), if_neg (by simp [h2]),
      if_neg (by simp [h3]), if_neg (Bool.false_ne_true)]

/-- An active continuation collects every unrecognized line (stripped,
blanks as `""`) until the remainder of the input. -/
theorem legacyLoop_append_collecting (pre : List String) :
    ∀ (rest : List String) (name price : String) (dl : List String),
    (∀ l ∈ pre, isRecognizedLine l = false) →
    legacyLoop (pre ++ rest) name price dl true
      = legacyLoop rest name price (dl ++ pre.map pyStrip) true := by
  induction pre with
  | nil =>
    intro rest name price dl _
    simp
  | cons l pre' ih =>
    intro rest name price dl h
    rw [List.cons_append,
      legacyLoop_cons_unrecognized_true l _ name price dl (h l (List.mem_cons_self l pre')),
      ih rest name price (dl ++ [pyStrip l]) (fun x hx => h x (List.mem_cons_of_mem l hx)),
      List.append_assoc]
    rfl

/-- Outside a continuation, a run of unrecognized lines is ignored. -/
theorem legacyLoop_append_ignored (pre : List String) :
    ∀ (rest : List String) (name price : String) (dl : List String),
    (∀ l ∈ pre, isRecognizedLine l = false) →
    legacyLoop (pre ++ rest) name price dl false
      = legacyLoop rest name price dl false := by
  induction pre with
  | nil =>
    intro rest name price dl _
    simp
  | cons l pre' ih =>
    intro rest name price dl h
    rw [List.cons_append,
      legacyLoop_cons_unrecognized_false l _ name price dl (h l (List.mem_cons_self l pre')),
      ih rest name price dl (fun x hx => h x (List.mem_cons_of_mem l hx))]

/-- A `名称：` line sets the name and ends any continuation. -/
theorem legacyLoop_cons_mingcheng (raw : String) (rest : List String)
    (name price : String) (dl : List String) (collecting : Bool)
    (h : pyStartsWith (pyStrip raw) "名称：" = true) :
    legacyLoop (raw :: rest) name price dl collecting
      = legacyLoop rest (pyStrip (afterFirstSep "：" (pyStrip raw))) price dl false := by
  have hne : ¬ pyStrip raw = "" :=
    pyStartsWith_ne_empty _ "名称：" '名' ['称', '：'] (by decide) h
  simp only [legacyLoop]
  rw [if_neg hne, if_pos h]

/-- A `介绍：` line restarts the description from its content and opens a
continuation. -/
theorem legacyLoop_cons_jieshao (raw : String) (rest : List String)
    (name price : String) (dl : List String) (collecting : Bool)
    (h : pyStartsWith (pyStrip raw) "介绍：" = true) :
    legacyLoop (raw :: rest) name price dl collecting
      = legacyLoop rest name price [pyStrip (afterFirstSep "：" (pyStrip raw))] true := by
  have hne : ¬ pyStrip raw = "" :=
    pyStartsWith_ne_empty _ "介绍：" '介' ['绍', '：'] (by decide) h
  have hm : pyStartsWith (pyStrip raw) "名称：" = false :=
    pyStartsWith_false_of_head_ne _ "介绍：" "名称：" '介' '名' ['绍', '：'] ['称', '：']
      (by decide) (by decide) (by decide) h
  simp only [legacyLoop]
  rw [if_neg hne, if_neg (by simp [hm]), if_pos h]

/-- A `价格：` line sets the price and ends any continuation. -/
theorem legacyLoop_cons_jiage (raw : String) (rest : List String)
    (name price : String) (dl : List String) (collecting : Bool)
    (h : pyStartsWith (pyStrip raw) "价格：" = true) :
    legacyLoop (raw :: rest) name price dl collecting
      = legacyLoop rest name (pyStrip (afterFirstSep "：" (pyStrip raw))) dl false := by
  have hne : ¬ pyStrip raw = "" :=
    pyStartsWith_ne_empty _ "价格：" '价' ['格', '：'] (by decide) h
  have hm : pyStartsWith (pyStrip raw) "名称：" = false :=
    pyStartsWith_false_of_head_ne _ "价格：" "名称：" '价' '名' ['格', '：'] ['称', '：']
      (by decide) (by decide) (by decide) h
  have hj : pyStartsWith (pyStrip raw) "介绍：" = false :=
    pyStartsWith_false_of_head_ne _ "价格：" "介绍：" '价' '介' ['格', '：'] ['绍', '：']
      (by decide) (by decide) (by decide) h
  simp only [legacyLoop]
  rw [if_neg hne, if_neg (by simp [hm]), if_neg (by simp [hj]), if_pos h]

/-- Claim C6: legacy parsing never produces description blocks; each of
the three labeled prefixes — and no other line shape — changes the state
(`名称：`/`价格：` set their field and end any continuation, `介绍：`
restarts the description and opens one); a continuation collects every
following unrecognized line, with blank lines preserved as `""` paragraph
breaks and non-blank lines stripped, until the next recognized label or
the end of the content; unrecognized lines outside a continuation are
ignored; and the claim's example file parses to name `X`, price `9`,
description `hello\nworld`.  The last conjunct shows a blank line inside a
continuation surviving to the final description as a paragraph break. -/
theorem legacy_parse_labels :
    (∀ t, (parseLegacyMetadata t).description_blocks = []) ∧
    (∀ raw rest name price dl collecting, pyStartsWith (pyStrip raw) "名称：" = true →
      legacyLoop (raw :: rest) name price dl collecting
        = legacyLoop rest (pyStrip (afterFirstSep "：" (pyStrip raw))) price dl false) ∧
    (∀ raw rest name price dl collecting, pyStartsWith (pyStrip raw) "介绍：" = true →
      legacyLoop (raw :: rest) name price dl collecting
        = legacyLoop rest name price [pyStrip (afterFirstSep "：" (pyStrip raw))] true) ∧
    (∀ raw rest name price dl collecting, pyStartsWith (pyStrip raw) "价格：" = true →
      legacyLoop (raw :: rest) name price dl collecting
        = legacyLoop rest name (pyStrip (afterFirstSep "：" (pyStrip raw))) dl false) ∧
    (∀ pre rest name price dl, (∀ l ∈ pre, isRecognizedLine l = false) →
      legacyLoop (pre ++ rest) name price dl true
        = legacyLoop rest name price (dl ++ pre.map pyStrip) true) ∧
    (∀ pre rest name price dl, (∀ l ∈ pre, isRecognizedLine l = false) →
      legacyLoop (pre ++ rest) name price dl false
        = legacyLoop rest name price dl false) ∧
    parseLegacyMetadata "名称：X\n介绍：hello\nworld\n价格：9"
      = ⟨"X", "9", "hello\nworld", []⟩ ∧
    (∀ jsonParse, parseMetadataFile jsonParse ".txt" "名称：X\n介绍：hello\nworld\n价格：9\n"
      = .ok (⟨"X", "9", "hello\nworld", []⟩, .text "名称：X\n介绍：hello\nworld\n价格：9")) ∧
    parseLegacyMetadata "stray\n名称：X\nignored\n价格：9" = ⟨"X", "9", "", []⟩ ∧
    parseLegacyMetadata "介绍：a\n\nb\n价格：9" = ⟨"", "9", "a\n\nb", []⟩ := by
  refine ⟨?_,
    fun raw rest name price dl collecting h =>
      legacyLoop_cons_mingcheng raw rest name price dl collecting h,
    fun raw rest name price dl collecting h =>
      legacyLoop_cons_jieshao raw rest name price dl collecting h,
    fun raw rest name price dl collecting h =>
      legacyLoop_cons_jiage raw rest name price dl collecting h,
    fun pre rest name price dl h =>
      legacyLoop_append_collecting pre rest name price dl h,
    fun pre rest name price dl h =>
      legacyLoop_append_ignored pre rest name price dl h,
    rfl, fun jsonParse => rfl, rfl, rfl⟩
  intro t
  show (parseLegacyMetadata t).description_blocks = []
  unfold parseLegacyMetadata
  rcases legacyLoop (pySplitlines t) "" "" [] false with ⟨n, p, d⟩
  rfl

/-- Witness for claim C6: the continuation conjunct collects three
unrecognized lines — the blank middle line preserved as `""` — and the
`价格：` conjunct sets the price and ends the continuation, both at
concrete inputs. -/
theorem legacy_parse_labels_witness :
    legacyLoop ["hello", "", "world"] "" "" [] true = ("", "", ["hello", "", "world"]) ∧
    legacyLoop ["价格：9"] "X" "" ["d"] true = ("X", "9", ["d"]) :=
  ⟨((legacy_parse_labels.2.2.2.2.1 ["hello", "", "world"] [] "" "" []
      (by decide)).trans (by decide)),
    ((legacy_parse_labels.2.2.2.1 "价格：9" [] "X" "" ["d"] true
      (by decide)).trans (by decide))⟩

/-- Claim C7: the legacy writer emits exactly the string
`名称：{name}\n介绍：{description}\n价格：{price}\n`, and a multi-line
description is written after the single `介绍：` label rather than being
re-expanded across repeated labels — the example shows the embedded
newline producing a fourth physical line with no second label. -/
theorem legacy_serialize_format :
    (∀ data : EditData, buildLegacyText data
      = "名称：" ++ data.name ++ "\n介绍：" ++ data.desc ++ "\n价格：" ++
        data.price ++ "\n") ∧
    buildLegacyText ⟨"N", "9", "a\nb"⟩ = "名称：N\n介绍：a\nb\n价格：9\n" ∧
    pySplitlines (buildLegacyText ⟨"N", "9", "a\nb"⟩)
      = ["名称：N", "介绍：a", "b", "价格：9"] :=
  ⟨fun _ => rfl, rfl, rfl⟩

/-- Each escaped character expands to text free of raw angle brackets. -/
theorem pyHtmlEscapeChar_no_angle (c : Char) :
    ∀ d ∈ (pyHtmlEscapeChar c).data, d ≠ '<' ∧ d ≠ '>' := by
  unfold pyHtmlEscapeChar
  by_cases h1 : c = '&'
  · rw [if_pos h1]; decide
  rw [if_neg h1]
  by_cases h2 : c = '<'
  · rw [if_pos h2]; decide
  rw [if_neg h2]
  by_cases h3 : c = '>'
  · rw [if_pos h3]; decide
  rw [if_neg h3]
  by_cases h4 : c = '"'
  · rw [if_pos h4]; decide
  rw [if_neg h4]
  by_cases h5 : c = '\x27'
  · rw [if_pos h5]; decide
  rw [if_neg h5]
  intro d hd
  have hdc : d = c := by simpa [String.singleton] using hd
  subst hdc
  exact ⟨h2, h3⟩

/-- Escaped text contains no raw angle brackets. -/
theorem escapeChars_no_angle (l : List Char) :
    ∀ d ∈ escapeChars l, d ≠ '<' ∧ d ≠ '>' := by
  induction l with
  | nil => simp [escapeChars]
  | cons c rest ih =>
    intro d hd
    rcases List.mem_append.mp hd with hd | hd
    · exact pyHtmlEscapeChar_no_angle c d hd
    · exact ih d hd

/-- Each escaped character expands with exactly the original's newlines. -/
theorem pyHtmlEscapeChar_count_nl (c : Char) :
    ((pyHtmlEscapeChar c).data.count '\n') = (if c = '\n' then 1 else 0) := by
  unfold pyHtmlEscapeChar
  by_cases h1 : c = '&'
  · rw [if_pos h1, if_neg (by rw [h1]; decide)]; decide
  rw [if_neg h1]
  by_cases h2 : c = '<'
  · rw [if_pos h2, if_neg (by rw [h2]; decide)]; decide
  rw [if_neg h2]
  by_cases h3 : c = '>'
  · rw [if_pos h3, if_neg (by rw [h3]; decide)]; decide
  rw [if_neg h3]
  by_cases h4 : c = '"'
  · rw [if_pos h4, if_neg (by rw [h4]; decide)]; decide
  rw [if_neg h4]
  by_cases h5 : c = '\x27'
  · rw [if_pos h5, if_neg (by rw [h5]; decide)]; decide
  rw [if_neg h5]
  by_cases h6 : c = '\n'
  · rw [if_pos h6, h6]
    decide
  · rw [if_neg h6]
    simp [String.singleton, List.count_singleton', h6]

/-- Escaping preserves the newline count. -/
theorem escapeChars_count_nl (l : List Char) :
    (escapeChars l).count '\n' = l.count '\n' := by
  induction l with
  | nil => rfl
  | cons c rest ih =>
    rw [show escapeChars (c :: rest) = (pyHtmlEscapeChar c).data ++ escapeChars rest
      from rfl]
    rw [List.count_append, ih, pyHtmlEscapeChar_count_nl, List.count_cons]
    by_cases h : c = '\n'
    · rw [if_pos h, if_pos (show (c == '\n') = true by simp [h])]
      omega
    · rw [if_neg h, if_neg (show ¬ (c == '\n') = true by simp [h])]
      simp

/-- Replacing newlines with `<br />` in angle-free text yields one `<`
per original newline. -/
theorem replaceNl_count_lt (l : List Char) (hl : ∀ c ∈ l, c ≠ '<') :
    (replaceNlChars ("<br />".data) l).count '<' = l.count '\n' := by
  induction l with
  | nil => rfl
  | cons c rest ih =>
    have hrest := ih (fun d hd => hl d (List.mem_cons_of_mem c hd))
    rw [show replaceNlChars ("<br />".data) (c :: rest)
        = (if c = '\n' then "<br />".data else [c]) ++
          replaceNlChars ("<br />".data) rest from rfl]
    rw [List.count_append, hrest, List.count_cons]
    by_cases h : c = '\n'
    · rw [if_pos h, if_pos (show (c == '\n') = true by simp [h])]
      rw [show List.count '<' ("<br />".data) = 1 from by decide]
      omega
    · rw [if_neg h, if_neg (show ¬ (c == '\n') = true by simp [h])]
      have hc := hl c (List.mem_cons_self c rest)
      rw [List.count_cons]
      rw [if_neg (show ¬ (c == '<') = true by simp [hc])]
      simp

/-- Replacing newlines with `<br />` leaves no raw newline. -/
theorem replaceNl_count_nl (l : List Char) :
    (replaceNlChars ("<br />".data) l).count '\n' = 0 := by
  induction l with
  | nil => rfl
  | cons c rest ih =>
    rw [show replaceNlChars ("<br />".data) (c :: rest)
        = (if c = '\n' then "<br />".data else [c]) ++
          replaceNlChars ("<br />".data) rest from rfl]
    rw [List.count_append, ih]
    by_cases h : c = '\n'
    · rw [if_pos h]
      decide
    · rw [if_neg h]
      rw [List.count_cons]
      rw [if_neg (show ¬ (c == '\n') = true by simp [h])]
      simp

/-- Claim C8: the renderer HTML-escapes user-supplied text — the inline
rendering used for `slug`, `name`, `price` and block titles never emits a
raw angle bracket, the paragraph rendering used for the description and
block contents emits exactly one `<` per original newline (the `<br />`
markers) and no other, leaves no raw newline, and on the concrete
`<script>` payload produces only the inert escaped text with the newline
converted to a line break. -/
theorem render_escapes_user_text (v : String) :
    (∀ c ∈ (renderInline v).data, c ≠ '<' ∧ c ≠ '>') ∧
    (renderParagraph v).data.count '<' = v.data.count '\n' ∧
    (renderParagraph v).data.count '\n' = 0 ∧
    renderParagraph "<script>alert(1)</script>\nx"
      = "&lt;script&gt;alert(1)&lt;/script&gt;<br />x" ∧
    buildDescriptionHtml ⟨"s", "n", "<script>alert(1)</script>\nnext", "p",
        [⟨"<b>t</b>", "line1\nline2"⟩]⟩
      = "<p>&lt;script&gt;alert(1)&lt;/script&gt;<br />next</p><div class=\x27desc-grid\x27><article><h3>&lt;b&gt;t&lt;/b&gt;</h3><p>line1<br />line2</p></article></div>" := by
  refine ⟨?_, ?_, ?_, rfl, rfl⟩
  · intro c hc
    unfold renderInline at hc
    by_cases hv : v = ""
    · rw [if_pos hv] at hc
      cases hc
    · rw [if_neg hv] at hc
      exact escapeChars_no_angle v.data c hc
  · unfold renderParagraph
    by_cases hv : v = ""
    · rw [if_pos hv, hv]
      rfl
    · rw [if_neg hv]
      unfold replaceNewlines pyHtmlEscape
      show (replaceNlChars ("<br />".data) (escapeChars v.data)).count '<' = _
      rw [replaceNl_count_lt (escapeChars v.data)
        (fun d hd => (escapeChars_no_angle v.data d hd).1)]
      exact escapeChars_count_nl v.data
  · unfold renderParagraph
    by_cases hv : v = ""
    · rw [if_pos hv]
      rfl
    · rw [if_neg hv]
      exact replaceNl_count_nl _

/-- Witness for claim C8 at the concrete `<script>` payload: the rendered
paragraph is the inert escaped text with the newline turned into `<br />`. -/
theorem render_escapes_user_text_witness :
    renderParagraph "<script>alert(1)</script>\nx"
      = "&lt;script&gt;alert(1)&lt;/script&gt;<br />x" :=
  (render_escapes_user_text "").2.2.2.1

/-- Every six-bit index maps into the base64 alphabet. -/
theorem b64Char_mem (n : Nat) : b64Char n ∈ base64Alphabet := by
  unfold b64Char
  by_cases h : n < base64Alphabet.length
  · rw [List.getD_eq_getElem base64Alphabet 'A' h]
    exact List.getElem_mem h
  · rw [List.getD_eq_default base64Alphabet 'A' (Nat.le_of_not_lt h)]
    decide

/-- The encoded length is the padded four-per-three of the byte count. -/
theorem b64Encode_length (bytes : List Nat) :
    (b64Encode bytes).length = 4 * ((bytes.length + 2) / 3) := by
  induction bytes using b64Encode.induct with
  | case1 b1 b2 b3 rest ih =>
    simp only [b64Encode, List.length_cons, ih]
    omega
  | case2 b1 b2 =>
    simp only [b64Encode, List.length_cons, List.length_nil]
  | case3 b1 =>
    simp only [b64Encode, List.length_cons, List.length_nil]
  | case4 => rfl

/-- Every encoded character is an alphabet character or padding. -/
theorem b64Encode_chars (bytes : List Nat) :
    ∀ c ∈ b64Encode bytes, c ∈ base64Alphabet ∨ c = '=' := by
  induction bytes using b64Encode.induct with
  | case1 b1 b2 b3 rest ih =>
    intro c hc
    rcases List.mem_cons.mp hc with hc | hc
    · exact Or.inl (hc ▸ b64Char_mem _)
    rcases List.mem_cons.mp hc with hc | hc
    · exact Or.inl (hc ▸ b64Char_mem _)
    rcases List.mem_cons.mp hc with hc | hc
    · exact Or.inl (hc ▸ b64Char_mem _)
    rcases List.mem_cons.mp hc with hc | hc
    · exact Or.inl (hc ▸ b64Char_mem _)
    · exact ih c hc
  | case2 b1 b2 =>
    intro c hc
    simp only [b64Encode] at hc
    rcases List.mem_cons.mp hc with hc | hc
    · exact Or.inl (hc ▸ b64Char_mem _)
    rcases List.mem_cons.mp hc with hc | hc
    · exact Or.inl (hc ▸ b64Char_mem _)
    rcases List.mem_cons.mp hc with hc | hc
    · exact Or.inl (hc ▸ b64Char_mem _)
    · have : c = '=' := by simpa using hc
      exact Or.inr this
  | case3 b1 =>
    intro c hc
    simp only [b64Encode] at hc
    rcases List.mem_cons.mp hc with hc | hc
    · exact Or.inl (hc ▸ b64Char_mem _)
    rcases List.mem_cons.mp hc with hc | hc
    · exact Or.inl (hc ▸ b64Char_mem _)
    rcases List.mem_cons.mp hc with hc | hc
    · exact Or.inr hc
    · have : c = '=' := by simpa using hc
      exact Or.inr this
  | case4 =>
    intro c hc
    cases hc

/-- Claim C9, counterexample: for the unrecognized extension `.foo` the
resolver emits the MIME type `image/foo` verbatim instead of the
`image/jpeg` default the claim promises for unrecognized extensions. -/
theorem to_uri_counterexample :
    toUri (some []) ".foo" = "data:image/foo;base64," ∧
    toUriClaim recognizedImageExts (some []) ".foo" = "data:image/jpeg;base64," ∧
    "data:image/foo;base64," ≠ "data:image/jpeg;base64," :=
  ⟨rfl, rfl, by decide⟩

/-- Claim C9 (amended): for every readable image the resolver returns a
`data:` URI whose MIME subtype is the lowercased dot-stripped extension
used verbatim — whether or not it names a real image type — with
`image/jpeg` only when the extension is absent/empty; the payload is the
base64 encoding of the bytes (always `4*ceil(n/3)` alphabet-or-padding
characters). -/
theorem to_uri_data_scheme (bytes : List Nat) (suffix : String) :
    toUri (some bytes) "" = "data:image/jpeg;base64," ++ (⟨b64Encode bytes⟩ : String) ∧
    (pyStripDots (pyLower suffix) ≠ "" →
      toUri (some bytes) suffix
        = "data:image/" ++ pyStripDots (pyLower suffix) ++ ";base64," ++
          (⟨b64Encode bytes⟩ : String)) ∧
    toUri none suffix = "" ∧
    (b64Encode bytes).length = 4 * ((bytes.length + 2) / 3) ∧
    (∀ c ∈ b64Encode bytes, c ∈ base64Alphabet ∨ c = '=') := by
  refine ⟨rfl, ?_, rfl, b64Encode_length bytes, b64Encode_chars bytes⟩
  intro h
  simp only [toUri]
  rw [if_neg h]

/-- Witness for claim C9's amended theorem: the bytes of `"Man"` with
extension `.PNG` resolve to a `png` data URI with payload `TWFu`. -/
theorem to_uri_witness :
    toUri (some [77, 97, 110]) ".PNG" = "data:image/png;base64,TWFu" :=
  ((to_uri_data_scheme [77, 97, 110] ".PNG").2.1 (by decide)).trans (by decide)

/-- Claim C10: when structured metadata normalizes to an empty name — in
particular when the `name` key is missing — the loaded entry's display
name falls back to the folder name; a non-empty normalized name is used
as-is. -/
theorem entry_display_name (kvs : List (String × JValue)) (slug : String) :
    (jget kvs "name" = none →
      (normalizeObj kvs).name = "" ∧ loadEntryName (normalizeObj kvs) slug = slug) ∧
    ((normalizeObj kvs).name = "" → loadEntryName (normalizeObj kvs) slug = slug) ∧
    ((normalizeObj kvs).name ≠ "" →
      loadEntryName (normalizeObj kvs) slug = (normalizeObj kvs).name) := by
  refine ⟨?_, ?_, ?_⟩
  · intro h
    have hn : (normalizeObj kvs).name = "" := by
      rw [normalizeObj_name_eq, h]
      rfl
    refine ⟨hn, ?_⟩
    unfold loadEntryName
    rw [if_pos hn]
  · intro h
    unfold loadEntryName
    rw [if_pos h]
  · intro h
    unfold loadEntryName
    rw [if_neg h]

/-- Witness for claim C10: a metadata object with no `name` key displays
under the folder name `dress-01`. -/
theorem entry_display_name_witness :
    loadEntryName (normalizeObj [("price", JValue.str "1")]) "dress-01" = "dress-01" :=
  ((entry_display_name [("price", JValue.str "1")] "dress-01").1 rfl).2

end Cpml
